import Mathlib

/-!
Shallow embedding of the PypeIt reduction driver (`pypit/arms.py`, function
`ARMS`) and of `pypeit/core/wavecal/waveio.py` (`load_line_lists`).

The driver is modelled as a state-passing program over an explicit state
`St`: the in-memory calibration cache `calib_dict` (keyed by product kind
and setup, exactly the four kinds the source stores there: bias, arc, bpm,
trace), the on-disk master store `disk`, the standard-star map `std_dict`
(insertion-ordered, as a Python dict), the written science outputs `outs`,
and an event trace `tr` recording every invocation of an external compute
collaborator (`Event.compute`), every product resolution
(`Event.resolve`), every science/standard raw-frame reduction, every
output write, the sensitivity-function build and every flux rewrite.

External collaborators (bias/arc/bpm/trace/tilt/flat/wave builders, the
raw-frame loader, the output writer, the sensitivity-function builder) are
opaque function parameters collected in `Params`; product values are
abstract (`V := Nat`).  Collaborator methods whose bodies are not part of
the source under scrutiny (`BiasFrame.master`, `ArcImage.master`,
`armasters.load_master_frame`, `ScienceExposure.MasterFlatField`,
`ScienceExposure.MasterWave`) are modelled from the spec, section 4.1: on a
cache/field miss the master store is queried only when reuse-from-disk is
enabled, otherwise the product is computed and persisted.
-/

namespace PypeIt

/-- Calibration product values are abstract tokens. -/
abbrev V := Nat

/-- The seven calibration product kinds of the data model. -/
inductive Kind
  | bias | arc | bpm | trace | tilt | flat | wave
deriving DecidableEq, Repr, Fintype

/-- The kinds stored in the in-memory `calib_dict` by the source
(`arms.py` lines 135-213): bias, arc, bpm and trace.  Tilt, flat and wave
are held on the per-exposure `slf` object instead. -/
def Kind.isCached : Kind → Bool
  | .bias | .arc | .bpm | .trace => true
  | _ => false

/-- Observable events of a run. `compute k s` records an invocation of the
underlying build collaborator for kind `k` at setup `s`; `resolve k s v`
records that the driver resolved product `(k, s)` to value `v` (from the
cache, the disk store, or a fresh computation). -/
inductive Event
  | compute (k : Kind) (s : Nat)
  | resolve (k : Kind) (s : Nat) (v : V)
  | reduceSci (sciId : Nat) (det : Nat)
  | reduceStd (stdIdx : Nat) (det : Nat)
  | write (sciId : Nat)
  | writeStd (stdIdx : Nat)
  | sensBuild (stdIdx : Nat)
  | fluxed (sciId : Nat)
deriving DecidableEq, Repr

/-- Failure taxonomy reaching the orchestrator: a missing raw frame
(`arload.load_frames` failing) or a failed output write. -/
inductive Err
  | missingInput (idx det : Nat)
  | writeFailure (sciId : Nat)
deriving DecidableEq, Repr

/-- The calibration-derived per-detector fields of a `ScienceExposure`
that `arms.py` lines 296-299 copies from a science exposure onto its
standard star (exactly the attribute list of the source). -/
structure CalibFields where
  pixlocn : Nat → Option V
  lordloc : Nat → Option V
  rordloc : Nat → Option V
  pixcen : Nat → Option V
  pixwid : Nat → Option V
  lordpix : Nat → Option V
  rordpix : Nat → Option V
  slitpix : Nat → Option V
  tilts : Nat → Option V
  satmask : Nat → Option V
  maskslits : Nat → Option V
  slitprof : Nat → Option V
  mspixelflatnrm : Nat → Option V
  mswave : Nat → Option V

/-- An all-`none` per-detector field. -/
def noneF : Nat → Option V := fun _ => none

/-- Fresh calibration fields. -/
def emptyFields : CalibFields :=
  ⟨noneF, noneF, noneF, noneF, noneF, noneF, noneF, noneF, noneF, noneF,
   noneF, noneF, noneF, noneF⟩

/-- A `ScienceExposure` object: the copied calibration fields, the 1D
wavelength solution (`_wvcalib`, set by `MasterWaveCalib`, not part of the
copied list), the per-detector `extracted` flags (used for standards) and
the extracted spectra. -/
structure Exp where
  cf : CalibFields
  wvcalib : Nat → Option V
  extracted : Nat → Bool
  specobjs : List (Nat × V)

/-- A freshly constructed exposure object. -/
def initExp : Exp := ⟨emptyFields, noneF, fun _ => false, []⟩

/-- Run parameters: settings scalars and the external collaborators as
opaque functions. `setupOf sciId det` is `arsetup.instr_setup`; `stdOf
sciId` is the first index of `arsort.ftype_indices(fitstbl, 'standard',
sci_ID)`; `loadFrames idx det` is `arload.load_frames` (`none` models a
missing raw frame); `writeOk` models success of the output writer. -/
structure Params where
  ndet : Nat
  detnum : Option (List Nat)
  reuse : Bool
  force : Bool
  fluxFlag : Bool
  archival : Option V
  disk0 : Kind → Nat → Option V
  setupOf : Nat → Nat → Nat
  stdOf : Nat → Option Nat
  biasFn : Nat → Nat → V
  arcFn : V → Nat → Nat → V
  bpmFn : V → V → Nat → V
  traceFn : V → V → Nat → Nat → V
  wvcalibFn : V → Nat → V
  tiltFn : V → Nat → V
  flatFn : V → Nat → V
  waveFn : V → V → Nat → V
  lcen : V → V
  rcen : V → V
  pixcenF : V → V
  pixwidF : V → V
  lordpixF : V → V
  rordpixF : V → V
  slitpixF : V → V
  genPixloc : V → Nat → V
  initMask : V → V
  satmaskOf : V → V
  slitprofOf : V → V
  reduceFn : V → Nat → V
  sensFn : List (Nat × V) → V
  fluxApply : V → V → V
  loadFrames : Nat → Nat → Option V
  writeOk : Nat → Bool

/-- The mutable run state threaded through the driver. -/
structure St where
  calib_dict : Kind → Nat → Option V
  disk : Kind → Nat → Option V
  std_dict : List (Nat × Exp)
  outs : List (Nat × List (Nat × V))
  tr : List Event

/-- Association-list lookup (Python `dict` access by key). -/
def lookupL {α : Type} : List (Nat × α) → Nat → Option α
  | [], _ => none
  | (k, a) :: rest, i => if k = i then some a else lookupL rest i

/-- Association-list in-place update of an existing key. -/
def setL {α : Type} : List (Nat × α) → Nat → α → List (Nat × α)
  | [], _, _ => []
  | (k, a) :: rest, i, b => if k = i then (k, b) :: rest else (k, a) :: setL rest i b

/-- Append one event to the trace. -/
def emitE (e : Event) (st : St) : St := { st with tr := st.tr ++ [e] }

/-- Store a product in the in-memory `calib_dict`. -/
def cacheSet (k : Kind) (s : Nat) (v : V) (st : St) : St :=
  { st with calib_dict := fun k' s' =>
      if k' = k ∧ s' = s then some v else st.calib_dict k' s' }

/-- Persist a product to the on-disk master store. -/
def diskSet (k : Kind) (s : Nat) (v : V) (st : St) : St :=
  { st with disk := fun k' s' =>
      if k' = k ∧ s' = s then some v else st.disk k' s' }

/-- Point update of a per-detector field. -/
def upd (f : Nat → Option V) (d : Nat) (v : V) : Nat → Option V :=
  fun d' => if d' = d then some v else f d'

/-- Point update of a per-detector flag. -/
def updB (f : Nat → Bool) (d : Nat) (b : Bool) : Nat → Bool :=
  fun d' => if d' = d then b else f d'

/-- The `calib_dict`-backed resolution pattern of `arms.py` lines 135-213:
cache hit returns the stored value; on a miss the master store is
consulted (for bias/arc/trace; the disk query inside `master()` /
`from_master_files` is gated on the reuse/force settings, modelled from
the spec for `BiasFrame.master` and `ArcImage.master`, and explicit in the
source for the trace branch), and otherwise the product is computed,
persisted when `useDisk`, and stored in the cache. -/
def masterResolve (P : Params) (useDisk : Bool) (k : Kind) (s : Nat) (fv : V)
    (st : St) : V × St :=
  match st.calib_dict k s with
  | some v => (v, emitE (.resolve k s v) st)
  | none =>
    match (if useDisk && (P.reuse || P.force) then st.disk k s else none) with
    | some v => (v, emitE (.resolve k s v) (cacheSet k s v st))
    | none =>
      let st1 := emitE (.compute k s) st
      let st2 := if useDisk then diskSet k s fv st1 else st1
      (fv, emitE (.resolve k s fv) (cacheSet k s fv st2))

/-- The per-exposure resolution pattern of `arms.py` lines 236-248 (tilt;
reused for the flat and wave steps whose `slf` methods are modelled from
the spec): if the exposure's own field is set, the block is skipped;
otherwise a master is loaded from disk when reuse is enabled
(`armasters.load_master_frame`, modelled from the spec section 4.1), else
the product is computed and saved to disk.  The returned `Bool` records
whether a fresh computation happened. -/
def slfResolve (P : Params) (k : Kind) (s : Nat) (cur : Option V) (fv : V)
    (st : St) : V × Bool × St :=
  match cur with
  | some v => (v, false, emitE (.resolve k s v) st)
  | none =>
    match (if P.reuse || P.force then st.disk k s else none) with
    | some v => (v, false, emitE (.resolve k s v) st)
    | none =>
      let st1 := emitE (.compute k s) st
      let st2 := diskSet k s fv st1
      (fv, true, emitE (.resolve k s fv) st2)

/-- Detector skipping, `arms.py` lines 97-100: when `detnum` is set, a
detector not listed is skipped. -/
def detSkip (P : Params) (det : Nat) : Bool :=
  match P.detnum with
  | none => false
  | some l => !(l.contains det)

/-- Pixel-location array stored on `slf` (`arms.py` lines 173-177). -/
def pixSet (P : Params) (det : Nat) (msarc : V) (slf : Exp) : Exp :=
  { slf with cf := { slf.cf with
      pixlocn := upd slf.cf.pixlocn det (P.genPixloc msarc det) } }

/-- Slit-trace geometry propagation onto `slf` (`arms.py` lines 215-226)
plus the 1D wavelength solution (`MasterWaveCalib`, line 230, modelled
from the spec as a per-exposure product of the master arc). -/
def geomSet (P : Params) (det : Nat) (tslits msarc : V) (slf : Exp) : Exp :=
  { slf with
    cf := { slf.cf with
      lordloc := upd slf.cf.lordloc det (P.lcen tslits)
      rordloc := upd slf.cf.rordloc det (P.rcen tslits)
      pixcen := upd slf.cf.pixcen det (P.pixcenF tslits)
      pixwid := upd slf.cf.pixwid det (P.pixwidF tslits)
      lordpix := upd slf.cf.lordpix det (P.lordpixF tslits)
      rordpix := upd slf.cf.rordpix det (P.rordpixF tslits)
      slitpix := upd slf.cf.slitpix det (P.slitpixF tslits)
      maskslits := upd slf.cf.maskslits det (P.initMask tslits) }
    wvcalib := upd slf.wvcalib det (P.wvcalibFn msarc det) }

/-- Store the tilt solution on `slf`; the saturation mask is only set when
the tilts were freshly derived (`arms.py` lines 240-244). -/
def tiltSet (P : Params) (det : Nat) (t : V) (computedNow : Bool) (slf : Exp) : Exp :=
  let slf1 := { slf with cf := { slf.cf with tilts := upd slf.cf.tilts det t } }
  if computedNow then
    { slf1 with cf := { slf1.cf with satmask := upd slf1.cf.satmask det (P.satmaskOf t) } }
  else slf1

/-- Store the flat-field products on `slf` (`MasterFlatField`, modelled
from the spec: the normalized pixel flat and the slit profile). -/
def flatSet (P : Params) (det : Nat) (f : V) (slf : Exp) : Exp :=
  { slf with cf := { slf.cf with
      mspixelflatnrm := upd slf.cf.mspixelflatnrm det f
      slitprof := upd slf.cf.slitprof det (P.slitprofOf f) } }

/-- Store the wavelength map on `slf` (`MasterWave`, modelled from the
spec). -/
def waveSet (det : Nat) (w : V) (slf : Exp) : Exp :=
  { slf with cf := { slf.cf with mswave := upd slf.cf.mswave det w } }

/-- Science-frame reduction followed by opportunistic standard-star
co-reduction (`arms.py` lines 275-307).  The science raw frame is loaded
(failure is a `MissingInputError`) and reduced; if the exposure has an
assigned standard that is not yet extracted on this detector, every
calibration field is copied from the science exposure onto the standard by
value (the `setattr` loop, bringing along all detectors), the standard's
raw frame is loaded and reduced, and it is marked extracted.
`reduce_multislit` is modelled from the spec as producing extracted
spectra only; it does not touch the calibration fields. -/
def sciStdStage (P : Params) (sciId det : Nat) (slf : Exp) (st : St) :
    Exp × St × Option Err :=
  match P.loadFrames sciId det with
  | none => (slf, st, some (.missingInput sciId det))
  | some raw =>
    let slf1 := { slf with specobjs := slf.specobjs ++ [(det, P.reduceFn raw det)] }
    let st1 := emitE (.reduceSci sciId det) st
    match P.stdOf sciId with
    | none => (slf1, st1, none)
    | some i =>
      match lookupL st1.std_dict i with
      | none => (slf1, st1, none)
      | some stdslf =>
        if stdslf.extracted det then (slf1, st1, none)
        else
          let stdslf1 := { stdslf with cf := slf1.cf }
          let st2 := { st1 with std_dict := setL st1.std_dict i stdslf1 }
          match P.loadFrames i det with
          | none => (slf1, st2, some (.missingInput i det))
          | some rawS =>
            let stdslf2 := { stdslf1 with
              specobjs := stdslf1.specobjs ++ [(det, P.reduceFn rawS det)]
              extracted := updB stdslf1.extracted det true }
            let st3 := { st2 with std_dict := setL st2.std_dict i stdslf2 }
            (slf1, emitE (.reduceStd i det) st3, none)

/-- One (exposure, detector) iteration of the driver, `arms.py` lines
95-307: skip check, setup lookup, then bias, arc, bad-pixel mask, pixel
locations, slit trace, geometry propagation, 1D wavelength solution,
tilts, flat field, wavelength map, science reduction and standard
co-reduction, in source order. -/
def detStep (P : Params) (sciId : Nat) (slf : Exp) (st : St) (det : Nat) :
    Exp × St × Option Err :=
  if detSkip P det then (slf, st, none) else
  let s := P.setupOf sciId det
  match masterResolve P true .bias s (P.biasFn s det) st with
  | (msbias, st) =>
  match masterResolve P true .arc s (P.arcFn msbias s det) st with
  | (msarc, st) =>
  match masterResolve P false .bpm s (P.bpmFn msarc msbias det) st with
  | (msbpm, st) =>
  let slf := pixSet P det msarc slf
  match masterResolve P true .trace s (P.traceFn msbias msbpm s det) st with
  | (tslits, st) =>
  let slf := geomSet P det tslits msarc slf
  match slfResolve P .tilt s (slf.cf.tilts det) (P.tiltFn msarc det) st with
  | (tilts, tiltsNew, st) =>
  let slf := tiltSet P det tilts tiltsNew slf
  match slfResolve P .flat s (slf.cf.mspixelflatnrm det) (P.flatFn msbias det) st with
  | (f, _, st) =>
  let slf := flatSet P det f slf
  let wv := P.wvcalibFn msarc det
  match slfResolve P .wave s (slf.cf.mswave det) (P.waveFn wv tilts det) st with
  | (w, _, st) =>
  sciStdStage P sciId det (waveSet det w slf) st

/-- The detector loop of one exposure; an error aborts the loop
immediately (Python exception semantics: no handler in `ARMS`). -/
def runDets (P : Params) (sciId : Nat) (slf : Exp) (st : St) :
    List Nat → Exp × St × Option Err
  | [] => (slf, st, none)
  | det :: rest =>
    match detStep P sciId slf st det with
    | (slf', st', none) => runDets P sciId slf' st' rest
    | (slf', st', some e) => (slf', st', some e)

/-- One science exposure: run all detectors, then write the exposure's
spectra (`arms.py` lines 309-328) and release the in-memory exposure state
(the `slf` object is local to this step and dropped). -/
def expStep (P : Params) (st : St) (sciId : Nat) : St × Option Err :=
  match runDets P sciId initExp st (List.range' 1 P.ndet) with
  | (slf, st1, none) =>
    if P.writeOk sciId then
      ({ st1 with outs := st1.outs ++ [(sciId, slf.specobjs)]
                  tr := st1.tr ++ [.write sciId] }, none)
    else (st1, some (.writeFailure sciId))
  | (_, st1, some e) => (st1, some e)

/-- The exposure loop (`for sc in range(numsci)`); the first uncaught
failure stops the run. -/
def runExps (P : Params) (st : St) : List Nat → St × Option Err
  | [] => (st, none)
  | sciId :: rest =>
    match expStep P st sciId with
    | (st', none) => runExps P st' rest
    | (st', some e) => (st', some e)

/-- Construction of `std_dict` (`arms.py` lines 64-76): for each science
ID in table order, the first standard index is inserted if not already
present, so the dict is keyed in first-seen order. -/
def buildStds (P : Params) : List Nat → List (Nat × Exp) → List (Nat × Exp)
  | [], acc => acc
  | sciId :: rest, acc =>
    match P.stdOf sciId with
    | none => buildStds P rest acc
    | some i =>
      if (lookupL acc i).isSome then buildStds P rest acc
      else buildStds P rest (acc ++ [(i, initExp)])

/-- Writing the standard-star spectra after the exposure loop (`arms.py`
lines 331-334). -/
def writeStds (st : St) : St :=
  { st with tr := st.tr ++ st.std_dict.map (fun p => Event.writeStd p.1) }

/-- The flux loop (`arms.py` lines 363-375): for every science exposure,
re-read its written spec1d file, apply the sensitivity function to each
extracted spectrum, and overwrite the file in place. -/
def fluxLoop (P : Params) (sens : V) : List Nat → St → St
  | [], st => st
  | sciId :: rest, st =>
    match lookupL st.outs sciId with
    | none => fluxLoop P sens rest st
    | some c =>
      fluxLoop P sens rest
        { st with outs := setL st.outs sciId (c.map (fun p => (p.1, P.fluxApply sens p.2)))
                  tr := st.tr ++ [.fluxed sciId] }

/-- The deferred flux stage (`arms.py` lines 339-375): it runs only when
flux calibration is requested and `std_dict` is non-empty; without an
archival sensitivity function it builds one from the standard at the first
key of `std_dict`, then fluxes every written science exposure. -/
def fluxStage (P : Params) (ids : List Nat) (st : St) : St :=
  if P.fluxFlag && !st.std_dict.isEmpty then
    match st.std_dict with
    | [] => st
    | (i, e) :: _ =>
      match P.archival with
      | none => fluxLoop P (P.sensFn e.specobjs) ids (emitE (.sensBuild i) st)
      | some v => fluxLoop P v ids st
  else st

/-- The observable outcome of a run: the event trace, the written science
outputs, the uncaught error if the run aborted, and the returned status
(the source's `status` variable, initialised to 0 and never reassigned in
`ARMS`). -/
structure Report where
  tr : List Event
  outs : List (Nat × List (Nat × V))
  err : Option Err
  status : Nat
deriving DecidableEq, Repr

/-- The initial run state: empty cache, the pre-existing master store,
the standard-star map built from the observation table, no outputs. -/
def initSt (P : Params) (ids : List Nat) : St :=
  { calib_dict := fun _ _ => none, disk := P.disk0,
    std_dict := buildStds P ids [], outs := [], tr := [] }

/-- The full `ARMS` driver (`arms.py` lines 33-377): build `std_dict`,
loop over the science exposures, write the standards, run the deferred
flux stage, and return status 0. -/
def ARMS (P : Params) (ids : List Nat) : Report :=
  match runExps P (initSt P ids) ids with
  | (st1, some e) => { tr := st1.tr, outs := st1.outs, err := some e, status := 0 }
  | (st1, none) =>
    let st2 := fluxStage P ids (writeStds st1)
    { tr := st2.tr, outs := st2.outs, err := none, status := 0 }

/-! ### Trace observation functions -/

/-- Number of `compute` events for kind `k` at setup `s`. -/
def countCompute (k : Kind) (s : Nat) : List Event → Nat
  | [] => 0
  | Event.compute k' s' :: rest =>
    (if k' = k ∧ s' = s then 1 else 0) + countCompute k s rest
  | _ :: rest => countCompute k s rest

/-- Values of the `resolve` events for kind `k` at setup `s`, in order. -/
def resolvesFor (k : Kind) (s : Nat) : List Event → List V
  | [] => []
  | Event.resolve k' s' v :: rest =>
    if k' = k ∧ s' = s then v :: resolvesFor k s rest else resolvesFor k s rest
  | _ :: rest => resolvesFor k s rest

/-- The kinds of the `resolve` events, in order. -/
def resolveKinds : List Event → List Kind
  | [] => []
  | Event.resolve k _ _ :: rest => k :: resolveKinds rest
  | _ :: rest => resolveKinds rest

/-- Number of standard-star reductions of standard `i` on detector `det`. -/
def countStdRed (i det : Nat) : List Event → Nat
  | [] => 0
  | Event.reduceStd i' det' :: rest =>
    (if i' = i ∧ det' = det then 1 else 0) + countStdRed i det rest
  | _ :: rest => countStdRed i det rest

/-- Science IDs of the `write` events, in order. -/
def writesOf : List Event → List Nat
  | [] => []
  | Event.write sciId :: rest => sciId :: writesOf rest
  | _ :: rest => writesOf rest

/-- Standard indices of the `sensBuild` events, in order. -/
def sensOf : List Event → List Nat
  | [] => []
  | Event.sensBuild i :: rest => i :: sensOf rest
  | _ :: rest => sensOf rest

/-- The dependency-ordered resolution sequence of one detector iteration. -/
def canonicalOrder : List Kind :=
  [.bias, .arc, .bpm, .trace, .tilt, .flat, .wave]

/-- Position of each kind in the resolution sequence. -/
def ordPos : Kind → Nat
  | .bias => 0 | .arc => 1 | .bpm => 2 | .trace => 3
  | .tilt => 4 | .flat => 5 | .wave => 6

/-- Upstream inputs of each step's compute function, as invoked by the
driver: the arc builder takes the master bias; the bad-pixel mask takes
the master arc and bias; the trace builder takes the bias and the mask;
the tilt fit takes the master arc; the flat takes the bias; the wavelength
map takes the 1D solution (from the arc) and the tilts. -/
def depsOf : Kind → List Kind
  | .bias => []
  | .arc => [.bias]
  | .bpm => [.arc, .bias]
  | .trace => [.bias, .bpm]
  | .tilt => [.arc]
  | .flat => [.bias]
  | .wave => [.arc, .tilt]

/-! ### Embedding of `waveio.load_line_lists` -/

/-- Line-list file name for a lamp (`waveio.py` lines 153-156). -/
def fileOfLamp (NIST : Bool) (line : String) : String :=
  if NIST then line ++ "_vacuum.ascii" else line ++ "_lines.dat"

/-- The read loop of `load_line_lists` (`waveio.py` lines 151-162): a
missing file raises `IOError` unless `skip` is set, in which case it is
silently omitted; existing files are loaded in order.  The filesystem is
modelled as a partial map from file names to loaded tables
(`load_line_list` reads the file's table directly). -/
def readLists (fs : String → Option Nat) (NIST skip : Bool) :
    List String → Except String (List Nat)
  | [] => .ok []
  | l :: rest =>
    match fs (fileOfLamp NIST l) with
    | none =>
      if skip then readLists fs NIST skip rest
      else .error l
    | some t => (readLists fs NIST skip rest).map (t :: ·)

/-- `load_line_lists` (`waveio.py` lines 122-176, `all=False` path): read
the requested lists, return `none` when nothing was loaded, otherwise
stack them (`vstack`), optionally appending the unknown-line list. -/
def load_line_lists (fs : String → Option Nat) (vstack : List Nat → Nat)
    (loadUnknown : List String → Nat) (lines : List String)
    (unknown skip NIST : Bool) : Except String (Option Nat) :=
  match readLists fs NIST skip lines with
  | .error l => .error l
  | .ok lists =>
    if lists.isEmpty then .ok none
    else
      if unknown then .ok (some (vstack [vstack lists, loadUnknown lines]))
      else .ok (some (vstack lists))

/-! ### Run invariants -/

/-- Cache coherence for one cached kind at one setup: while `(k, s)` is
absent from `calib_dict` nothing has been computed or resolved for it, and
once it holds `v` the compute collaborator has run at most once and every
resolution returned exactly `v`. -/
def InvKS (k : Kind) (s : Nat) (st : St) : Prop :=
  (st.calib_dict k s = none →
    countCompute k s st.tr = 0 ∧ resolvesFor k s st.tr = []) ∧
  (∀ v, st.calib_dict k s = some v →
    countCompute k s st.tr ≤ 1 ∧ ∀ w ∈ resolvesFor k s st.tr, w = v)

/-- Cache coherence for every cached kind and setup. -/
def Inv (st : St) : Prop := ∀ k s, Kind.isCached k = true → InvKS k s st

/-- Standard-star coherence: each standard is reduced at most once per
detector, not at all while its `extracted` flag is down or while it is
absent from `std_dict`. -/
def J (st : St) : Prop := ∀ i det,
  countStdRed i det st.tr ≤ 1 ∧
  (∀ e, lookupL st.std_dict i = some e → e.extracted det = false →
    countStdRed i det st.tr = 0) ∧
  (lookupL st.std_dict i = none → countStdRed i det st.tr = 0)

/-! ### Concrete runs used as test inputs -/

/-- A single-detector run configuration with master reuse disabled (the
source defaults), no detector restriction, a constant setup, no flux
calibration, and the compute collaborators left as parameters. -/
def scenarioP (bf : Nat → Nat → V) (af : V → Nat → Nat → V) (pf : V → V → Nat → V)
    (tf : V → V → Nat → Nat → V) (wcf : V → Nat → V) (tif : V → Nat → V)
    (ff : V → Nat → V) (wf : V → V → Nat → V) (rf : V → Nat → V) : Params :=
  { ndet := 1, detnum := none, reuse := false, force := false, fluxFlag := false,
    archival := none, disk0 := fun _ _ => none,
    setupOf := fun _ _ => 0, stdOf := fun _ => none,
    biasFn := bf, arcFn := af, bpmFn := pf, traceFn := tf, wvcalibFn := wcf,
    tiltFn := tif, flatFn := ff, waveFn := wf,
    lcen := id, rcen := id, pixcenF := id, pixwidF := id, lordpixF := id,
    rordpixF := id, slitpixF := id,
    genPixloc := fun v _ => v, initMask := id, satmaskOf := id, slitprofOf := id,
    reduceFn := rf, sensFn := fun _ => 0, fluxApply := fun _ v => v,
    loadFrames := fun _ _ => some 0, writeOk := fun _ => true }

/-- The scenario with all collaborators returning the token 0. -/
def PC2 : Params :=
  scenarioP (fun _ _ => 0) (fun _ _ _ => 0) (fun _ _ _ => 0) (fun _ _ _ _ => 0)
    (fun _ _ => 0) (fun _ _ => 0) (fun _ _ => 0) (fun _ _ _ => 0) (fun _ _ => 0)

/-- The empty run state. -/
def stEmpty : St :=
  { calib_dict := fun _ _ => none, disk := fun _ _ => none,
    std_dict := [], outs := [], tr := [] }

/-- A state holding one unreduced standard at index 5. -/
def stStd : St := { stEmpty with std_dict := [(5, initExp)] }

/-- The scenario in which the science raw frame of exposure 1 is missing
from the observation table. -/
def PC6fail : Params :=
  { PC2 with loadFrames := fun idx _ => if idx = 1 then none else some 0 }

/-- The scenario with every raw frame missing. -/
def PC6allfail : Params := { PC2 with loadFrames := fun _ _ => none }

/-- Flux calibration requested, one standard assigned to every science
exposure, and an empty `detnum` list so that every detector is skipped and
nothing is ever reduced. -/
def PC9flux : Params :=
  { PC2 with fluxFlag := true, detnum := some [], stdOf := fun _ => some 5 }

/-- The scenario with a standard star at index 5 assigned to every science
exposure. -/
def PC5std : Params := { PC2 with stdOf := fun _ => some 5 }

/-- Flux calibration requested on the plain scenario. -/
def PC8flux : Params := { PC2 with fluxFlag := true }

/-- A state with one standard and two written science outputs. -/
def stC8 : St :=
  { stEmpty with
    std_dict := [(5, initExp)]
    outs := [(1, [(1, 7)]), (2, [])] }

/-! ### Lemmas: trace observations distribute over append -/

theorem countCompute_append (k : Kind) (s : Nat) (l1 l2 : List Event) :
    countCompute k s (l1 ++ l2) = countCompute k s l1 + countCompute k s l2 := by
  induction l1 with
  | nil => simp [countCompute]
  | cons e rest ih => cases e <;> simp [countCompute, ih, Nat.add_assoc]

theorem resolvesFor_append (k : Kind) (s : Nat) (l1 l2 : List Event) :
    resolvesFor k s (l1 ++ l2) = resolvesFor k s l1 ++ resolvesFor k s l2 := by
  induction l1 with
  | nil => simp [resolvesFor]
  | cons e rest ih =>
    cases e <;> simp only [List.cons_append, resolvesFor, ih, List.append_eq]
    split <;> simp

theorem resolveKinds_append (l1 l2 : List Event) :
    resolveKinds (l1 ++ l2) = resolveKinds l1 ++ resolveKinds l2 := by
  induction l1 with
  | nil => simp [resolveKinds]
  | cons e rest ih => cases e <;> simp [resolveKinds, ih]

theorem countStdRed_append (i det : Nat) (l1 l2 : List Event) :
    countStdRed i det (l1 ++ l2) = countStdRed i det l1 + countStdRed i det l2 := by
  induction l1 with
  | nil => simp [countStdRed]
  | cons e rest ih => cases e <;> simp [countStdRed, ih, Nat.add_assoc]

theorem writesOf_append (l1 l2 : List Event) :
    writesOf (l1 ++ l2) = writesOf l1 ++ writesOf l2 := by
  induction l1 with
  | nil => simp [writesOf]
  | cons e rest ih => cases e <;> simp [writesOf, ih]

theorem sensOf_append (l1 l2 : List Event) :
    sensOf (l1 ++ l2) = sensOf l1 ++ sensOf l2 := by
  induction l1 with
  | nil => simp [sensOf]
  | cons e rest ih => cases e <;> simp [sensOf, ih]

/-! ### Lemmas: association lists -/

theorem lookupL_setL_some {α : Type} (l : List (Nat × α)) (i : Nat) (a b : α)
    (h : lookupL l i = some a) : lookupL (setL l i b) i = some b := by
  induction l with
  | nil => simp [lookupL] at h
  | cons p rest ih =>
    obtain ⟨key, x⟩ := p
    by_cases hk : key = i
    · simp [lookupL, setL, hk]
    · simp only [lookupL, setL, if_neg hk] at h ⊢
      exact ih h

theorem lookupL_setL_ne {α : Type} (l : List (Nat × α)) (i i' : Nat) (b : α)
    (h : i' ≠ i) : lookupL (setL l i b) i' = lookupL l i' := by
  induction l with
  | nil => simp [setL]
  | cons p rest ih =>
    obtain ⟨key, x⟩ := p
    by_cases hk : key = i
    · subst hk
      simp [lookupL, setL, if_neg (fun hh : key = i' => h (hh.symm))]
    · simp only [setL, if_neg hk, lookupL]
      split <;> simp [ih]

/-! ### Lemmas: the invariants are preserved by neutral extensions -/

theorem inv_mono (st st' : St) (Δ : List Event)
    (hc : st'.calib_dict = st.calib_dict) (ht : st'.tr = st.tr ++ Δ)
    (hΔ : ∀ k s, Kind.isCached k = true →
      countCompute k s Δ = 0 ∧ resolvesFor k s Δ = []) :
    Inv st → Inv st' := by
  intro h k s hk
  obtain ⟨h1, h2⟩ := h k s hk
  obtain ⟨d1, d2⟩ := hΔ k s hk
  constructor
  · intro hnone
    rw [hc] at hnone
    obtain ⟨e1, e2⟩ := h1 hnone
    rw [ht, countCompute_append, resolvesFor_append, e1, e2, d1, d2]
    exact ⟨rfl, rfl⟩
  · intro v hsome
    rw [hc] at hsome
    obtain ⟨e1, e2⟩ := h2 v hsome
    rw [ht, countCompute_append, resolvesFor_append, d1, d2]
    refine ⟨by omega, ?_⟩
    intro w hw
    rw [List.append_nil] at hw
    exact e2 w hw

theorem j_mono (st st' : St) (Δ : List Event)
    (hs : st'.std_dict = st.std_dict) (ht : st'.tr = st.tr ++ Δ)
    (hΔ : ∀ i det, countStdRed i det Δ = 0) :
    J st → J st' := by
  intro h i det
  obtain ⟨h1, h2, h3⟩ := h i det
  rw [hs, ht, countStdRed_append, hΔ i det]
  exact ⟨by omega, fun e he hf => by rw [h2 e he hf], fun hn => by rw [h3 hn]⟩

/-! ### Characterization of the resolution combinators -/

theorem diskIf_tr (b : Bool) (k : Kind) (s : Nat) (v : V) (st : St) :
    (if b then diskSet k s v st else st).tr = st.tr := by
  cases b <;> simp [diskSet]

theorem diskIf_calib (b : Bool) (k : Kind) (s : Nat) (v : V) (st : St) :
    (if b then diskSet k s v st else st).calib_dict = st.calib_dict := by
  cases b <;> simp [diskSet]

theorem diskIf_std (b : Bool) (k : Kind) (s : Nat) (v : V) (st : St) :
    (if b then diskSet k s v st else st).std_dict = st.std_dict := by
  cases b <;> simp [diskSet]

theorem diskIf_outs (b : Bool) (k : Kind) (s : Nat) (v : V) (st : St) :
    (if b then diskSet k s v st else st).outs = st.outs := by
  cases b <;> simp [diskSet]

theorem countCompute_one_ne {k k' : Kind} {s s' : Nat}
    (h : ¬(k' = k ∧ s' = s)) : countCompute k' s' [Event.compute k s] = 0 := by
  have h' : ¬(k = k' ∧ s = s') := fun hh => h ⟨hh.1.symm, hh.2.symm⟩
  simp [countCompute, h']

theorem resolvesFor_one_ne {k k' : Kind} {s s' : Nat} (v : V)
    (h : ¬(k' = k ∧ s' = s)) : resolvesFor k' s' [Event.resolve k s v] = [] := by
  have h' : ¬(k = k' ∧ s = s') := fun hh => h ⟨hh.1.symm, hh.2.symm⟩
  simp [resolvesFor, h']

theorem masterResolve_char (P : Params) (ud : Bool) (k : Kind) (s : Nat)
    (fv : V) (st : St) :
    ∃ Δ, (masterResolve P ud k s fv st).2.tr = st.tr ++ Δ ∧
      resolveKinds Δ = [k] ∧ writesOf Δ = [] ∧ sensOf Δ = [] ∧
      (∀ i d, countStdRed i d Δ = 0) ∧
      (masterResolve P ud k s fv st).2.std_dict = st.std_dict ∧
      (masterResolve P ud k s fv st).2.outs = st.outs ∧
      (Kind.isCached k = true → Inv st → Inv (masterResolve P ud k s fv st).2) ∧
      (J st → J (masterResolve P ud k s fv st).2) := by
  rcases hcd : st.calib_dict k s with _ | v
  · rcases hdk : (if ud && (P.reuse || P.force) then st.disk k s else none) with _ | w
    · -- cache miss, disk miss: compute, persist, store
      have hres : (masterResolve P ud k s fv st).2 =
          emitE (.resolve k s fv) (cacheSet k s fv
            (if ud then diskSet k s fv (emitE (.compute k s) st)
             else emitE (.compute k s) st)) := by
        unfold masterResolve
        rw [hcd, hdk]
      refine ⟨[.compute k s, .resolve k s fv], ?_, ?_, ?_, ?_, ?_, ?_, ?_, ?_, ?_⟩
      · rw [hres]; simp [emitE, cacheSet, diskIf_tr]
      · simp [resolveKinds]
      · simp [writesOf]
      · simp [sensOf]
      · intro i d; simp [countStdRed]
      · rw [hres]; simp [emitE, cacheSet, diskIf_std]
      · rw [hres]; simp [emitE, cacheSet, diskIf_outs]
      · -- cache coherence
        intro _ hInv k' s' hk'
        obtain ⟨h1, h2⟩ := hInv k' s' hk'
        have hcal : (masterResolve P ud k s fv st).2.calib_dict = fun k' s' =>
            if k' = k ∧ s' = s then some fv else st.calib_dict k' s' := by
          rw [hres]; simp [emitE, cacheSet, diskIf_calib]
        have htr : (masterResolve P ud k s fv st).2.tr =
            st.tr ++ [Event.compute k s, Event.resolve k s fv] := by
          rw [hres]; simp [emitE, cacheSet, diskIf_tr]
        rw [InvKS, hcal, htr]
        by_cases hks : k' = k ∧ s' = s
        · obtain ⟨hk1, hk2⟩ := hks
          subst hk1; subst hk2
          obtain ⟨e1, e2⟩ := h1 hcd
          constructor
          · intro hnone; simp at hnone
          · intro v hv
            simp at hv
            subst hv
            rw [countCompute_append, resolvesFor_append, e1, e2]
            constructor
            · simp [countCompute]
            · intro w hw
              simp [resolvesFor] at hw
              exact hw
        · simp only [if_neg hks]
          rw [countCompute_append, resolvesFor_append]
          have hc0 : countCompute k' s' [Event.compute k s, Event.resolve k s fv] = 0 := by
            have h' : ¬(k = k' ∧ s = s') := fun hh => hks ⟨hh.1.symm, hh.2.symm⟩
            simp [countCompute, h']
          have hr0 : resolvesFor k' s' [Event.compute k s, Event.resolve k s fv] = [] := by
            have h' : ¬(k = k' ∧ s = s') := fun hh => hks ⟨hh.1.symm, hh.2.symm⟩
            simp [resolvesFor, h']
          rw [hc0, hr0]
          constructor
          · intro hnone
            obtain ⟨e1, e2⟩ := h1 hnone
            rw [e1, e2]; exact ⟨rfl, rfl⟩
          · intro v hv
            obtain ⟨e1, e2⟩ := h2 v hv
            refine ⟨by omega, ?_⟩
            intro w hw
            rw [List.append_nil] at hw
            exact e2 w hw
      · -- standard coherence: only compute/resolve events, std_dict unchanged
        have hstd : (masterResolve P ud k s fv st).2.std_dict = st.std_dict := by
          rw [hres]; simp [emitE, cacheSet, diskIf_std]
        have htr : (masterResolve P ud k s fv st).2.tr =
            st.tr ++ [Event.compute k s, Event.resolve k s fv] := by
          rw [hres]; simp [emitE, cacheSet, diskIf_tr]
        exact j_mono st _ _ hstd htr (fun i d => by simp [countStdRed])
    · -- cache miss, disk hit: load and store, no computation
      have hres : (masterResolve P ud k s fv st).2 =
          emitE (.resolve k s w) (cacheSet k s w st) := by
        unfold masterResolve
        rw [hcd, hdk]
      refine ⟨[.resolve k s w], ?_, ?_, ?_, ?_, ?_, ?_, ?_, ?_, ?_⟩
      · rw [hres]; simp [emitE, cacheSet]
      · simp [resolveKinds]
      · simp [writesOf]
      · simp [sensOf]
      · intro i d; simp [countStdRed]
      · rw [hres]; simp [emitE, cacheSet]
      · rw [hres]; simp [emitE, cacheSet]
      · intro _ hInv k' s' hk'
        obtain ⟨h1, h2⟩ := hInv k' s' hk'
        have hcal : (masterResolve P ud k s fv st).2.calib_dict = fun k' s' =>
            if k' = k ∧ s' = s then some w else st.calib_dict k' s' := by
          rw [hres]; simp [emitE, cacheSet]
        have htr : (masterResolve P ud k s fv st).2.tr =
            st.tr ++ [Event.resolve k s w] := by
          rw [hres]; simp [emitE, cacheSet]
        rw [InvKS, hcal, htr]
        by_cases hks : k' = k ∧ s' = s
        · obtain ⟨hk1, hk2⟩ := hks
          subst hk1; subst hk2
          obtain ⟨e1, e2⟩ := h1 hcd
          constructor
          · intro hnone; simp at hnone
          · intro v hv
            simp at hv
            subst hv
            rw [countCompute_append, resolvesFor_append, e1, e2]
            constructor
            · simp [countCompute]
            · intro x hx
              simp [resolvesFor] at hx
              exact hx
        · simp only [if_neg hks]
          rw [countCompute_append, resolvesFor_append]
          have hc0 : countCompute k' s' [Event.resolve k s w] = 0 := by
            simp [countCompute]
          have hr0 : resolvesFor k' s' [Event.resolve k s w] = [] :=
            resolvesFor_one_ne w hks
          rw [hc0, hr0]
          constructor
          · intro hnone
            obtain ⟨e1, e2⟩ := h1 hnone
            rw [e1, e2]; exact ⟨rfl, rfl⟩
          · intro v hv
            obtain ⟨e1, e2⟩ := h2 v hv
            refine ⟨by omega, ?_⟩
            intro x hx
            rw [List.append_nil] at hx
            exact e2 x hx
      · have hstd : (masterResolve P ud k s fv st).2.std_dict = st.std_dict := by
          rw [hres]; simp [emitE, cacheSet]
        have htr : (masterResolve P ud k s fv st).2.tr =
            st.tr ++ [Event.resolve k s w] := by
          rw [hres]; simp [emitE, cacheSet]
        exact j_mono st _ _ hstd htr (fun i d => by simp [countStdRed])
  · -- cache hit: no computation, no state change but the resolve event
    have hres : (masterResolve P ud k s fv st).2 = emitE (.resolve k s v) st := by
      unfold masterResolve
      rw [hcd]
    refine ⟨[.resolve k s v], ?_, ?_, ?_, ?_, ?_, ?_, ?_, ?_, ?_⟩
    · rw [hres]; simp [emitE]
    · simp [resolveKinds]
    · simp [writesOf]
    · simp [sensOf]
    · intro i d; simp [countStdRed]
    · rw [hres]; simp [emitE]
    · rw [hres]; simp [emitE]
    · intro _ hInv k' s' hk'
      obtain ⟨h1, h2⟩ := hInv k' s' hk'
      have hcal : (masterResolve P ud k s fv st).2.calib_dict = st.calib_dict := by
        rw [hres]; simp [emitE]
      have htr : (masterResolve P ud k s fv st).2.tr =
          st.tr ++ [Event.resolve k s v] := by
        rw [hres]; simp [emitE]
      rw [InvKS, hcal, htr]
      by_cases hks : k' = k ∧ s' = s
      · obtain ⟨hk1, hk2⟩ := hks
        subst hk1; subst hk2
        obtain ⟨e1, e2⟩ := h2 v hcd
        constructor
        · intro hnone
          rw [hnone] at hcd; exact absurd hcd (by simp)
        · intro x hx
          rw [hcd] at hx
          have hxv : v = x := by injection hx
          rw [countCompute_append, resolvesFor_append]
          constructor
          · have h0 : countCompute k' s' [Event.resolve k' s' v] = 0 := by
              simp [countCompute]
            omega
          · intro y hy
            rw [List.mem_append] at hy
            rcases hy with hy | hy
            · rw [← hxv]; exact e2 y hy
            · simp [resolvesFor] at hy
              rw [← hxv]; exact hy
      · rw [countCompute_append, resolvesFor_append]
        have hc0 : countCompute k' s' [Event.resolve k s v] = 0 := by
          simp [countCompute]
        have hr0 : resolvesFor k' s' [Event.resolve k s v] = [] :=
          resolvesFor_one_ne v hks
        rw [hc0, hr0]
        constructor
        · intro hnone
          obtain ⟨e1, e2⟩ := h1 hnone
          rw [e1, e2]; exact ⟨rfl, rfl⟩
        · intro x hx
          obtain ⟨e1, e2⟩ := h2 x hx
          refine ⟨by omega, ?_⟩
          intro y hy
          rw [List.append_nil] at hy
          exact e2 y hy
    · have hstd : (masterResolve P ud k s fv st).2.std_dict = st.std_dict := by
        rw [hres]; simp [emitE]
      have htr : (masterResolve P ud k s fv st).2.tr =
          st.tr ++ [Event.resolve k s v] := by
        rw [hres]; simp [emitE]
      exact j_mono st _ _ hstd htr (fun i d => by simp [countStdRed])

theorem slfResolve_char (P : Params) (k : Kind) (s : Nat) (cur : Option V)
    (fv : V) (st : St) :
    ∃ Δ, (slfResolve P k s cur fv st).2.2.tr = st.tr ++ Δ ∧
      resolveKinds Δ = [k] ∧ writesOf Δ = [] ∧ sensOf Δ = [] ∧
      (∀ i d, countStdRed i d Δ = 0) ∧
      (∀ k' s', ¬(k' = k ∧ s' = s) →
        countCompute k' s' Δ = 0 ∧ resolvesFor k' s' Δ = []) ∧
      (slfResolve P k s cur fv st).2.2.calib_dict = st.calib_dict ∧
      (slfResolve P k s cur fv st).2.2.std_dict = st.std_dict ∧
      (slfResolve P k s cur fv st).2.2.outs = st.outs := by
  rcases cur with _ | v
  · rcases hdk : (if P.reuse || P.force then st.disk k s else none) with _ | w
    · have hres : (slfResolve P k s none fv st).2.2 =
          emitE (.resolve k s fv) (diskSet k s fv (emitE (.compute k s) st)) := by
        unfold slfResolve
        rw [hdk]
      refine ⟨[.compute k s, .resolve k s fv], ?_, ?_, ?_, ?_, ?_, ?_, ?_, ?_, ?_⟩
      · rw [hres]; simp [emitE, diskSet]
      · simp [resolveKinds]
      · simp [writesOf]
      · simp [sensOf]
      · intro i d; simp [countStdRed]
      · intro k' s' hne
        have h' : ¬(k = k' ∧ s = s') := fun hh => hne ⟨hh.1.symm, hh.2.symm⟩
        simp [countCompute, resolvesFor, h']
      · rw [hres]; simp [emitE, diskSet]
      · rw [hres]; simp [emitE, diskSet]
      · rw [hres]; simp [emitE, diskSet]
    · have hres : (slfResolve P k s none fv st).2.2 = emitE (.resolve k s w) st := by
        unfold slfResolve
        rw [hdk]
      refine ⟨[.resolve k s w], ?_, ?_, ?_, ?_, ?_, ?_, ?_, ?_, ?_⟩
      · rw [hres]; simp [emitE]
      · simp [resolveKinds]
      · simp [writesOf]
      · simp [sensOf]
      · intro i d; simp [countStdRed]
      · intro k' s' hne
        have h' : ¬(k = k' ∧ s = s') := fun hh => hne ⟨hh.1.symm, hh.2.symm⟩
        simp [countCompute, resolvesFor, h']
      · rw [hres]; simp [emitE]
      · rw [hres]; simp [emitE]
      · rw [hres]; simp [emitE]
  · have hres : (slfResolve P k s (some v) fv st).2.2 = emitE (.resolve k s v) st := by
      unfold slfResolve
      rfl
    refine ⟨[.resolve k s v], ?_, ?_, ?_, ?_, ?_, ?_, ?_, ?_, ?_⟩
    · rw [hres]; simp [emitE]
    · simp [resolveKinds]
    · simp [writesOf]
    · simp [sensOf]
    · intro i d; simp [countStdRed]
    · intro k' s' hne
      have h' : ¬(k = k' ∧ s = s') := fun hh => hne ⟨hh.1.symm, hh.2.symm⟩
      simp [countCompute, resolvesFor, h']
    · rw [hres]; simp [emitE]
    · rw [hres]; simp [emitE]
    · rw [hres]; simp [emitE]

theorem slfResolve_inv (P : Params) (k : Kind) (s : Nat) (cur : Option V)
    (fv : V) (st : St) (hk : Kind.isCached k = false) :
    Inv st → Inv (slfResolve P k s cur fv st).2.2 := by
  obtain ⟨Δ, htr, _, _, _, _, hne, hcal, _, _⟩ := slfResolve_char P k s cur fv st
  refine inv_mono st _ Δ hcal htr ?_
  intro k' s' hk'
  refine hne k' s' ?_
  rintro ⟨hkk, _⟩
  rw [hkk] at hk'
  rw [hk'] at hk
  cases hk

theorem slfResolve_j (P : Params) (k : Kind) (s : Nat) (cur : Option V)
    (fv : V) (st : St) : J st → J (slfResolve P k s cur fv st).2.2 := by
  obtain ⟨Δ, htr, _, _, _, hstd0, _, _, hstd, _⟩ := slfResolve_char P k s cur fv st
  exact j_mono st _ Δ hstd htr hstd0

theorem countStdRed_sciEvent (i0 d0 sciId det : Nat) :
    countStdRed i0 d0 [Event.reduceSci sciId det] = 0 := by
  simp [countStdRed]

theorem countStdRed_pair (i0 d0 sciId det i : Nat) :
    countStdRed i0 d0 [Event.reduceSci sciId det, Event.reduceStd i det] =
      if i = i0 ∧ det = d0 then 1 else 0 := by
  simp [countStdRed]

theorem sciStdStage_char (P : Params) (sciId det : Nat) (slf : Exp) (st : St) :
    ∃ Δ, (sciStdStage P sciId det slf st).2.1.tr = st.tr ++ Δ ∧
      resolveKinds Δ = [] ∧ writesOf Δ = [] ∧ sensOf Δ = [] ∧
      (∀ k s, countCompute k s Δ = 0 ∧ resolvesFor k s Δ = []) ∧
      (sciStdStage P sciId det slf st).2.1.calib_dict = st.calib_dict ∧
      (sciStdStage P sciId det slf st).2.1.outs = st.outs ∧
      (Inv st → Inv (sciStdStage P sciId det slf st).2.1) ∧
      (J st → J (sciStdStage P sciId det slf st).2.1) := by
  rcases hload : P.loadFrames sciId det with _ | raw
  · -- missing science frame: state unchanged, error raised
    refine ⟨[], ?_, ?_, ?_, ?_, ?_, ?_, ?_, ?_, ?_⟩ <;>
      simp [sciStdStage, hload, resolveKinds, writesOf, sensOf, countCompute,
            resolvesFor, countStdRed]
  · rcases hstd : P.stdOf sciId with _ | i
    · -- no standard assigned
      refine ⟨[Event.reduceSci sciId det], ?_, ?_, ?_, ?_, ?_, ?_, ?_, ?_, ?_⟩
      · simp [sciStdStage, hload, hstd, emitE]
      · simp [resolveKinds]
      · simp [writesOf]
      · simp [sensOf]
      · intro k s; simp [countCompute, resolvesFor]
      · simp [sciStdStage, hload, hstd, emitE]
      · simp [sciStdStage, hload, hstd, emitE]
      · intro hInv
        refine inv_mono st _ [Event.reduceSci sciId det] ?_ ?_ ?_ hInv
        · simp [sciStdStage, hload, hstd, emitE]
        · simp [sciStdStage, hload, hstd, emitE]
        · intro k s _; simp [countCompute, resolvesFor]
      · intro hJ
        refine j_mono st _ [Event.reduceSci sciId det] ?_ ?_ ?_ hJ
        · simp [sciStdStage, hload, hstd, emitE]
        · simp [sciStdStage, hload, hstd, emitE]
        · intro i0 d0; simp [countStdRed]
    · rcases hlook : lookupL st.std_dict i with _ | stdslf
      · -- standard not in the dict (unreachable in full runs)
        refine ⟨[Event.reduceSci sciId det], ?_, ?_, ?_, ?_, ?_, ?_, ?_, ?_, ?_⟩
        · simp [sciStdStage, hload, hstd, hlook, emitE]
        · simp [resolveKinds]
        · simp [writesOf]
        · simp [sensOf]
        · intro k s; simp [countCompute, resolvesFor]
        · simp [sciStdStage, hload, hstd, hlook, emitE]
        · simp [sciStdStage, hload, hstd, hlook, emitE]
        · intro hInv
          refine inv_mono st _ [Event.reduceSci sciId det] ?_ ?_ ?_ hInv
          · simp [sciStdStage, hload, hstd, hlook, emitE]
          · simp [sciStdStage, hload, hstd, hlook, emitE]
          · intro k s _; simp [countCompute, resolvesFor]
        · intro hJ
          refine j_mono st _ [Event.reduceSci sciId det] ?_ ?_ ?_ hJ
          · simp [sciStdStage, hload, hstd, hlook, emitE]
          · simp [sciStdStage, hload, hstd, hlook, emitE]
          · intro i0 d0; simp [countStdRed]
      · cases hext : stdslf.extracted det
        · -- standard not yet extracted on this detector
          rcases hloadS : P.loadFrames i det with _ | rawS
          · -- standard frame missing: the copy already happened
            refine ⟨[Event.reduceSci sciId det], ?_, ?_, ?_, ?_, ?_, ?_, ?_, ?_, ?_⟩
            · simp [sciStdStage, hload, hstd, hlook, hext, hloadS, emitE]
            · simp [resolveKinds]
            · simp [writesOf]
            · simp [sensOf]
            · intro k s; simp [countCompute, resolvesFor]
            · simp [sciStdStage, hload, hstd, hlook, hext, hloadS, emitE]
            · simp [sciStdStage, hload, hstd, hlook, hext, hloadS, emitE]
            · intro hInv
              refine inv_mono st _ [Event.reduceSci sciId det] ?_ ?_ ?_ hInv
              · simp [sciStdStage, hload, hstd, hlook, hext, hloadS, emitE]
              · simp [sciStdStage, hload, hstd, hlook, hext, hloadS, emitE]
              · intro k s _; simp [countCompute, resolvesFor]
            · intro hJ
              have hstd_dict : (sciStdStage P sciId det slf st).2.1.std_dict =
                  setL st.std_dict i
                    { stdslf with cf := { slf with specobjs :=
                        slf.specobjs ++ [(det, P.reduceFn raw det)] }.cf } := by
                simp [sciStdStage, hload, hstd, hlook, hext, hloadS, emitE]
              have htr : (sciStdStage P sciId det slf st).2.1.tr =
                  st.tr ++ [Event.reduceSci sciId det] := by
                simp [sciStdStage, hload, hstd, hlook, hext, hloadS, emitE]
              intro i0 d0
              obtain ⟨j1, j2, j3⟩ := hJ i0 d0
              rw [htr, countStdRed_append, countStdRed_sciEvent, Nat.add_zero,
                  hstd_dict]
              by_cases hii : i0 = i
              · subst hii
                refine ⟨j1, ?_, ?_⟩
                · intro e he hef
                  rw [lookupL_setL_some st.std_dict i0 stdslf _ hlook] at he
                  have he' : ({ stdslf with cf := { slf with specobjs :=
                      slf.specobjs ++ [(det, P.reduceFn raw det)] }.cf } : Exp) = e := by
                    injection he
                  rw [← he'] at hef
                  exact j2 stdslf hlook hef
                · intro hn
                  rw [lookupL_setL_some st.std_dict i0 stdslf _ hlook] at hn
                  cases hn
              · rw [lookupL_setL_ne st.std_dict i i0 _ hii]
                exact ⟨j1, j2, j3⟩
          · -- full co-reduction of the standard
            refine ⟨[Event.reduceSci sciId det, Event.reduceStd i det],
              ?_, ?_, ?_, ?_, ?_, ?_, ?_, ?_, ?_⟩
            · simp [sciStdStage, hload, hstd, hlook, hext, hloadS, emitE]
            · simp [resolveKinds]
            · simp [writesOf]
            · simp [sensOf]
            · intro k s; simp [countCompute, resolvesFor]
            · simp [sciStdStage, hload, hstd, hlook, hext, hloadS, emitE]
            · simp [sciStdStage, hload, hstd, hlook, hext, hloadS, emitE]
            · intro hInv
              refine inv_mono st _ [Event.reduceSci sciId det, Event.reduceStd i det] ?_ ?_ ?_ hInv
              · simp [sciStdStage, hload, hstd, hlook, hext, hloadS, emitE]
              · simp [sciStdStage, hload, hstd, hlook, hext, hloadS, emitE]
              · intro k s _; simp [countCompute, resolvesFor]
            · intro hJ
              have hlook1 : lookupL (setL st.std_dict i
                  { stdslf with cf := { slf with specobjs :=
                      slf.specobjs ++ [(det, P.reduceFn raw det)] }.cf }) i =
                  some { stdslf with cf := { slf with specobjs :=
                      slf.specobjs ++ [(det, P.reduceFn raw det)] }.cf } :=
                lookupL_setL_some st.std_dict i stdslf _ hlook
              have hstd_dict : (sciStdStage P sciId det slf st).2.1.std_dict =
                  setL (setL st.std_dict i
                    { stdslf with cf := { slf with specobjs :=
                        slf.specobjs ++ [(det, P.reduceFn raw det)] }.cf }) i
                    { stdslf with
                      cf := { slf with specobjs :=
                        slf.specobjs ++ [(det, P.reduceFn raw det)] }.cf
                      specobjs := stdslf.specobjs ++ [(det, P.reduceFn rawS det)]
                      extracted := updB stdslf.extracted det true } := by
                simp [sciStdStage, hload, hstd, hlook, hext, hloadS, emitE]
              have htr : (sciStdStage P sciId det slf st).2.1.tr =
                  st.tr ++ [Event.reduceSci sciId det, Event.reduceStd i det] := by
                simp [sciStdStage, hload, hstd, hlook, hext, hloadS, emitE]
              intro i0 d0
              obtain ⟨j1, j2, j3⟩ := hJ i0 d0
              rw [htr, countStdRed_append, countStdRed_pair, hstd_dict]
              by_cases hii : i0 = i
              · subst hii
                have hlook2 := lookupL_setL_some _ i0 _
                  ({ stdslf with
                      cf := { slf with specobjs :=
                        slf.specobjs ++ [(det, P.reduceFn raw det)] }.cf
                      specobjs := stdslf.specobjs ++ [(det, P.reduceFn rawS det)]
                      extracted := updB stdslf.extracted det true } : Exp) hlook1
                refine ⟨?_, ?_, ?_⟩
                · have h0 : countStdRed i0 d0 st.tr = 0 ∨ d0 ≠ det := by
                    by_cases hdd : d0 = det
                    · subst hdd
                      exact Or.inl (j2 stdslf hlook hext)
                    · exact Or.inr hdd
                  rcases h0 with h0 | h0
                  · rw [h0]
                    split <;> omega
                  · have : ¬(i0 = i0 ∧ det = d0) := fun hh => h0 hh.2.symm
                    rw [if_neg this, Nat.add_zero]
                    exact j1
                · intro e he hef
                  rw [hlook2] at he
                  have he' : ({ stdslf with
                      cf := { slf with specobjs :=
                        slf.specobjs ++ [(det, P.reduceFn raw det)] }.cf
                      specobjs := stdslf.specobjs ++ [(det, P.reduceFn rawS det)]
                      extracted := updB stdslf.extracted det true } : Exp) = e := by
                    injection he
                  rw [← he'] at hef
                  simp only [updB] at hef
                  by_cases hdd : d0 = det
                  · rw [if_pos hdd] at hef
                    cases hef
                  · rw [if_neg hdd] at hef
                    have hold : countStdRed i0 d0 st.tr = 0 :=
                      j2 stdslf hlook hef
                    have : ¬(i0 = i0 ∧ det = d0) := fun hh => hdd hh.2.symm
                    rw [hold, if_neg this]
                · intro hn
                  rw [hlook2] at hn
                  cases hn
              · rw [lookupL_setL_ne _ i i0 _ hii, lookupL_setL_ne _ i i0 _ hii]
                have : ¬(i = i0 ∧ det = d0) := fun hh => hii hh.1.symm
                rw [if_neg this, Nat.add_zero]
                exact ⟨j1, j2, j3⟩
        · -- already extracted: nothing to do for the standard
          refine ⟨[Event.reduceSci sciId det], ?_, ?_, ?_, ?_, ?_, ?_, ?_, ?_, ?_⟩
          · simp [sciStdStage, hload, hstd, hlook, hext, emitE]
          · simp [resolveKinds]
          · simp [writesOf]
          · simp [sensOf]
          · intro k s; simp [countCompute, resolvesFor]
          · simp [sciStdStage, hload, hstd, hlook, hext, emitE]
          · simp [sciStdStage, hload, hstd, hlook, hext, emitE]
          · intro hInv
            refine inv_mono st _ [Event.reduceSci sciId det] ?_ ?_ ?_ hInv
            · simp [sciStdStage, hload, hstd, hlook, hext, emitE]
            · simp [sciStdStage, hload, hstd, hlook, hext, emitE]
            · intro k s _; simp [countCompute, resolvesFor]
          · intro hJ
            refine j_mono st _ [Event.reduceSci sciId det] ?_ ?_ ?_ hJ
            · simp [sciStdStage, hload, hstd, hlook, hext, emitE]
            · simp [sciStdStage, hload, hstd, hlook, hext, emitE]
            · intro i0 d0; simp [countStdRed]

theorem detStep_char (P : Params) (sciId : Nat) (slf : Exp) (st : St) (det : Nat) :
    ∃ Δ, (detStep P sciId slf st det).2.1.tr = st.tr ++ Δ ∧
      (detStep P sciId slf st det).2.1.outs = st.outs ∧
      writesOf Δ = [] ∧ sensOf Δ = [] ∧
      (Inv st → Inv (detStep P sciId slf st det).2.1) ∧
      (J st → J (detStep P sciId slf st det).2.1) ∧
      (detSkip P det = false → resolveKinds Δ = canonicalOrder) := by
  cases hskip : detSkip P det
  case true =>
    refine ⟨[], ?_, ?_, ?_, ?_, ?_, ?_, ?_⟩ <;>
      simp [detStep, hskip, writesOf, sensOf]
  case false =>
    rcases hb : masterResolve P true Kind.bias (P.setupOf sciId det)
        (P.biasFn (P.setupOf sciId det) det) st with ⟨msbias, st1⟩
    have hb2 : (masterResolve P true Kind.bias (P.setupOf sciId det)
        (P.biasFn (P.setupOf sciId det) det) st).2 = st1 := by rw [hb]
    obtain ⟨Δ1, t1, k1, w1, s1, r1, d1, o1, v1, j1⟩ :=
      masterResolve_char P true Kind.bias (P.setupOf sciId det)
        (P.biasFn (P.setupOf sciId det) det) st
    rw [hb2] at t1 d1 o1 v1 j1
    rcases ha : masterResolve P true Kind.arc (P.setupOf sciId det)
        (P.arcFn msbias (P.setupOf sciId det) det) st1 with ⟨msarc, st2⟩
    have ha2 : (masterResolve P true Kind.arc (P.setupOf sciId det)
        (P.arcFn msbias (P.setupOf sciId det) det) st1).2 = st2 := by rw [ha]
    obtain ⟨Δ2, t2, k2, w2, s2, r2, d2, o2, v2, j2⟩ :=
      masterResolve_char P true Kind.arc (P.setupOf sciId det)
        (P.arcFn msbias (P.setupOf sciId det) det) st1
    rw [ha2] at t2 d2 o2 v2 j2
    rcases hp : masterResolve P false Kind.bpm (P.setupOf sciId det)
        (P.bpmFn msarc msbias det) st2 with ⟨msbpm, st3⟩
    have hp2 : (masterResolve P false Kind.bpm (P.setupOf sciId det)
        (P.bpmFn msarc msbias det) st2).2 = st3 := by rw [hp]
    obtain ⟨Δ3, t3, k3, w3, s3, r3, d3, o3, v3, j3⟩ :=
      masterResolve_char P false Kind.bpm (P.setupOf sciId det)
        (P.bpmFn msarc msbias det) st2
    rw [hp2] at t3 d3 o3 v3 j3
    rcases ht : masterResolve P true Kind.trace (P.setupOf sciId det)
        (P.traceFn msbias msbpm (P.setupOf sciId det) det) st3 with ⟨tslits, st4⟩
    have ht2 : (masterResolve P true Kind.trace (P.setupOf sciId det)
        (P.traceFn msbias msbpm (P.setupOf sciId det) det) st3).2 = st4 := by rw [ht]
    obtain ⟨Δ4, t4, k4, w4, s4, r4, d4, o4, v4, j4⟩ :=
      masterResolve_char P true Kind.trace (P.setupOf sciId det)
        (P.traceFn msbias msbpm (P.setupOf sciId det) det) st3
    rw [ht2] at t4 d4 o4 v4 j4
    rcases hti : slfResolve P Kind.tilt (P.setupOf sciId det)
        ((geomSet P det tslits msarc (pixSet P det msarc slf)).cf.tilts det)
        (P.tiltFn msarc det) st4 with ⟨tilts, tn, st5⟩
    have hti2 : (slfResolve P Kind.tilt (P.setupOf sciId det)
        ((geomSet P det tslits msarc (pixSet P det msarc slf)).cf.tilts det)
        (P.tiltFn msarc det) st4).2.2 = st5 := by rw [hti]
    obtain ⟨Δ5, t5, k5, w5, s5, r5, n5, c5, d5, o5⟩ :=
      slfResolve_char P Kind.tilt (P.setupOf sciId det)
        ((geomSet P det tslits msarc (pixSet P det msarc slf)).cf.tilts det)
        (P.tiltFn msarc det) st4
    have v5 := slfResolve_inv P Kind.tilt (P.setupOf sciId det)
        ((geomSet P det tslits msarc (pixSet P det msarc slf)).cf.tilts det)
        (P.tiltFn msarc det) st4 rfl
    have j5 := slfResolve_j P Kind.tilt (P.setupOf sciId det)
        ((geomSet P det tslits msarc (pixSet P det msarc slf)).cf.tilts det)
        (P.tiltFn msarc det) st4
    rw [hti2] at t5 d5 o5 v5 j5
    rcases hfl : slfResolve P Kind.flat (P.setupOf sciId det)
        ((tiltSet P det tilts tn (geomSet P det tslits msarc
          (pixSet P det msarc slf))).cf.mspixelflatnrm det)
        (P.flatFn msbias det) st5 with ⟨f6, bf6, st6⟩
    have hfl2 : (slfResolve P Kind.flat (P.setupOf sciId det)
        ((tiltSet P det tilts tn (geomSet P det tslits msarc
          (pixSet P det msarc slf))).cf.mspixelflatnrm det)
        (P.flatFn msbias det) st5).2.2 = st6 := by rw [hfl]
    obtain ⟨Δ6, t6, k6, w6, s6, r6, n6, c6, d6, o6⟩ :=
      slfResolve_char P Kind.flat (P.setupOf sciId det)
        ((tiltSet P det tilts tn (geomSet P det tslits msarc
          (pixSet P det msarc slf))).cf.mspixelflatnrm det)
        (P.flatFn msbias det) st5
    have v6 := slfResolve_inv P Kind.flat (P.setupOf sciId det)
        ((tiltSet P det tilts tn (geomSet P det tslits msarc
          (pixSet P det msarc slf))).cf.mspixelflatnrm det)
        (P.flatFn msbias det) st5 rfl
    have j6 := slfResolve_j P Kind.flat (P.setupOf sciId det)
        ((tiltSet P det tilts tn (geomSet P det tslits msarc
          (pixSet P det msarc slf))).cf.mspixelflatnrm det)
        (P.flatFn msbias det) st5
    rw [hfl2] at t6 d6 o6 v6 j6
    rcases hw : slfResolve P Kind.wave (P.setupOf sciId det)
        ((flatSet P det f6 (tiltSet P det tilts tn (geomSet P det tslits msarc
          (pixSet P det msarc slf)))).cf.mswave det)
        (P.waveFn (P.wvcalibFn msarc det) tilts det) st6 with ⟨w7, bw7, st7⟩
    have hw2 : (slfResolve P Kind.wave (P.setupOf sciId det)
        ((flatSet P det f6 (tiltSet P det tilts tn (geomSet P det tslits msarc
          (pixSet P det msarc slf)))).cf.mswave det)
        (P.waveFn (P.wvcalibFn msarc det) tilts det) st6).2.2 = st7 := by rw [hw]
    obtain ⟨Δ7, t7, k7, w7e, s7, r7, n7, c7, d7, o7⟩ :=
      slfResolve_char P Kind.wave (P.setupOf sciId det)
        ((flatSet P det f6 (tiltSet P det tilts tn (geomSet P det tslits msarc
          (pixSet P det msarc slf)))).cf.mswave det)
        (P.waveFn (P.wvcalibFn msarc det) tilts det) st6
    have v7 := slfResolve_inv P Kind.wave (P.setupOf sciId det)
        ((flatSet P det f6 (tiltSet P det tilts tn (geomSet P det tslits msarc
          (pixSet P det msarc slf)))).cf.mswave det)
        (P.waveFn (P.wvcalibFn msarc det) tilts det) st6 rfl
    have j7 := slfResolve_j P Kind.wave (P.setupOf sciId det)
        ((flatSet P det f6 (tiltSet P det tilts tn (geomSet P det tslits msarc
          (pixSet P det msarc slf)))).cf.mswave det)
        (P.waveFn (P.wvcalibFn msarc det) tilts det) st6
    rw [hw2] at t7 d7 o7 v7 j7
    have key : ∃ slfF, detStep P sciId slf st det =
        sciStdStage P sciId det slfF st7 := by
      simp only [detStep, hskip, Bool.false_eq_true, if_false, hb, ha, hp, ht,
        hti, hfl, hw]
      exact ⟨_, rfl⟩
    obtain ⟨slfF, hkey⟩ := key
    obtain ⟨Δ8, t8, k8, w8, s8, r8, c8, o8, v8, j8⟩ :=
      sciStdStage_char P sciId det slfF st7
    refine ⟨Δ1 ++ (Δ2 ++ (Δ3 ++ (Δ4 ++ (Δ5 ++ (Δ6 ++ (Δ7 ++ Δ8)))))),
      ?_, ?_, ?_, ?_, ?_, ?_, ?_⟩
    · rw [hkey, t8, t7, t6, t5, t4, t3, t2, t1]
      simp [List.append_assoc]
    · rw [hkey, o8, o7, o6, o5, o4, o3, o2, o1]
    · simp [writesOf_append, w1, w2, w3, w4, w5, w6, w7e, w8]
    · simp [sensOf_append, s1, s2, s3, s4, s5, s6, s7, s8]
    · intro hInv
      rw [hkey]
      exact v8 (v7 (v6 (v5 (v4 rfl (v3 rfl (v2 rfl (v1 rfl hInv)))))))
    · intro hJ
      rw [hkey]
      exact j8 (j7 (j6 (j5 (j4 (j3 (j2 (j1 hJ)))))))
    · intro _
      simp [resolveKinds_append, k1, k2, k3, k4, k5, k6, k7, k8, canonicalOrder]

theorem runDets_char (P : Params) (sciId : Nat) :
    ∀ (dets : List Nat) (slf : Exp) (st : St),
    ∃ Δ, (runDets P sciId slf st dets).2.1.tr = st.tr ++ Δ ∧
      (runDets P sciId slf st dets).2.1.outs = st.outs ∧
      writesOf Δ = [] ∧ sensOf Δ = [] ∧
      (Inv st → Inv (runDets P sciId slf st dets).2.1) ∧
      (J st → J (runDets P sciId slf st dets).2.1) := by
  intro dets
  induction dets with
  | nil =>
    intro slf st
    refine ⟨[], ?_, ?_, ?_, ?_, ?_, ?_⟩ <;> simp [runDets, writesOf, sensOf]
  | cons det rest ih =>
    intro slf st
    rcases hd : detStep P sciId slf st det with ⟨slf', st', e⟩
    have hd2 : (detStep P sciId slf st det).2.1 = st' := by rw [hd]
    obtain ⟨Δ1, t1, o1, w1, s1, v1, j1, _⟩ := detStep_char P sciId slf st det
    rw [hd2] at t1 o1 v1 j1
    cases e
    case none =>
      have hred : runDets P sciId slf st (det :: rest) =
          runDets P sciId slf' st' rest := by
        simp [runDets, hd]
      obtain ⟨Δ2, t2, o2, w2, s2, v2, j2⟩ := ih slf' st'
      refine ⟨Δ1 ++ Δ2, ?_, ?_, ?_, ?_, ?_, ?_⟩
      · rw [hred, t2, t1]; simp [List.append_assoc]
      · rw [hred, o2, o1]
      · simp [writesOf_append, w1, w2]
      · simp [sensOf_append, s1, s2]
      · intro h; rw [hred]; exact v2 (v1 h)
      · intro h; rw [hred]; exact j2 (j1 h)
    case some err =>
      have hred : runDets P sciId slf st (det :: rest) = (slf', st', some err) := by
        simp [runDets, hd]
      refine ⟨Δ1, ?_, ?_, w1, s1, ?_, ?_⟩
      · rw [hred]; exact t1
      · rw [hred]; exact o1
      · intro h; rw [hred]; exact v1 h
      · intro h; rw [hred]; exact j1 h

theorem expStep_char (P : Params) (st : St) (sciId : Nat) :
    ∃ Δ, (expStep P st sciId).1.tr = st.tr ++ Δ ∧
      sensOf Δ = [] ∧
      (Inv st → Inv (expStep P st sciId).1) ∧
      (J st → J (expStep P st sciId).1) ∧
      ((expStep P st sciId).2 = none →
        Event.write sciId ∈ (expStep P st sciId).1.tr) ∧
      ((expStep P st sciId).2 ≠ none →
        writesOf (expStep P st sciId).1.tr = writesOf st.tr) := by
  rcases hr : runDets P sciId initExp st (List.range' 1 P.ndet) with ⟨slfR, stR, e⟩
  have hr2 : (runDets P sciId initExp st (List.range' 1 P.ndet)).2.1 = stR := by
    rw [hr]
  obtain ⟨Δ1, t1, o1, w1, s1, v1, j1⟩ :=
    runDets_char P sciId (List.range' 1 P.ndet) initExp st
  rw [hr2] at t1 o1 v1 j1
  cases e
  case none =>
    cases hwk : P.writeOk sciId
    case true =>
      have hred : expStep P st sciId =
          ({ stR with outs := stR.outs ++ [(sciId, slfR.specobjs)]
                      tr := stR.tr ++ [.write sciId] }, none) := by
        simp [expStep, hr, hwk]
      refine ⟨Δ1 ++ [Event.write sciId], ?_, ?_, ?_, ?_, ?_, ?_⟩
      · rw [hred]; simp only [t1]; simp [List.append_assoc]
      · simp [sensOf_append, s1, sensOf]
      · intro h
        rw [hred]
        refine inv_mono stR _ [Event.write sciId] rfl rfl ?_ (v1 h)
        intro k s _; simp [countCompute, resolvesFor]
      · intro h
        rw [hred]
        refine j_mono stR _ [Event.write sciId] rfl rfl ?_ (j1 h)
        intro i d; simp [countStdRed]
      · intro _
        rw [hred]
        simp
      · intro h
        rw [hred] at h
        simp at h
    case false =>
      have hred : expStep P st sciId = (stR, some (.writeFailure sciId)) := by
        simp [expStep, hr, hwk]
      refine ⟨Δ1, ?_, s1, ?_, ?_, ?_, ?_⟩
      · rw [hred]; exact t1
      · intro h; rw [hred]; exact v1 h
      · intro h; rw [hred]; exact j1 h
      · intro h; rw [hred] at h; simp at h
      · intro _
        rw [hred]
        simp only [t1, writesOf_append, w1, List.append_nil]
  case some err =>
    have hred : expStep P st sciId = (stR, some err) := by
      simp [expStep, hr]
    refine ⟨Δ1, ?_, s1, ?_, ?_, ?_, ?_⟩
    · rw [hred]; exact t1
    · intro h; rw [hred]; exact v1 h
    · intro h; rw [hred]; exact j1 h
    · intro h; rw [hred] at h; simp at h
    · intro _
      rw [hred]
      simp only [t1, writesOf_append, w1, List.append_nil]

theorem runExps_char (P : Params) : ∀ (ids : List Nat) (st : St),
    ∃ Δ, (runExps P st ids).1.tr = st.tr ++ Δ ∧ sensOf Δ = [] ∧
      (Inv st → Inv (runExps P st ids).1) ∧
      (J st → J (runExps P st ids).1) := by
  intro ids
  induction ids with
  | nil =>
    intro st
    refine ⟨[], ?_, ?_, ?_, ?_⟩ <;> simp [runExps, sensOf]
  | cons sciId rest ih =>
    intro st
    rcases he : expStep P st sciId with ⟨st1, e⟩
    have he1 : (expStep P st sciId).1 = st1 := by rw [he]
    obtain ⟨Δ1, t1, s1, v1, j1, _, _⟩ := expStep_char P st sciId
    rw [he1] at t1 v1 j1
    cases e
    case none =>
      have hred : runExps P st (sciId :: rest) = runExps P st1 rest := by
        simp [runExps, he]
      obtain ⟨Δ2, t2, s2, v2, j2⟩ := ih st1
      refine ⟨Δ1 ++ Δ2, ?_, ?_, ?_, ?_⟩
      · rw [hred, t2, t1]; simp [List.append_assoc]
      · simp [sensOf_append, s1, s2]
      · intro h; rw [hred]; exact v2 (v1 h)
      · intro h; rw [hred]; exact j2 (j1 h)
    case some err =>
      have hred : runExps P st (sciId :: rest) = (st1, some err) := by
        simp [runExps, he]
      refine ⟨Δ1, ?_, s1, ?_, ?_⟩
      · rw [hred]; exact t1
      · intro h; rw [hred]; exact v1 h
      · intro h; rw [hred]; exact j1 h

theorem runExps_writes (P : Params) : ∀ (ids : List Nat) (st : St),
    (runExps P st ids).2 = none →
    ∀ id ∈ ids, Event.write id ∈ (runExps P st ids).1.tr := by
  intro ids
  induction ids with
  | nil =>
    intro st _ id hid
    simp at hid
  | cons sciId rest ih =>
    intro st hok id hid
    rcases he : expStep P st sciId with ⟨st1, e⟩
    have he1 : (expStep P st sciId).1 = st1 := by rw [he]
    have he2 : (expStep P st sciId).2 = e := by rw [he]
    cases e
    case some err =>
      have hred : runExps P st (sciId :: rest) = (st1, some err) := by
        simp [runExps, he]
      rw [hred] at hok
      simp at hok
    case none =>
      have hred : runExps P st (sciId :: rest) = runExps P st1 rest := by
        simp [runExps, he]
      rw [hred] at hok ⊢
      rcases List.mem_cons.mp hid with hid | hid
      · subst hid
        obtain ⟨Δ1, t1, _, _, _, hmem, _⟩ := expStep_char P st id
        rw [he1] at hmem
        have hin : Event.write id ∈ st1.tr := hmem he2
        obtain ⟨Δ2, t2, _, _, _⟩ := runExps_char P rest st1
        rw [t2]
        exact List.mem_append_left _ hin
      · exact ih st1 hok id hid

theorem writeStd_map_neutral (l : List (Nat × Exp)) :
    (∀ k s, countCompute k s (l.map (fun p => Event.writeStd p.1)) = 0 ∧
        resolvesFor k s (l.map (fun p => Event.writeStd p.1)) = []) ∧
    (∀ i d, countStdRed i d (l.map (fun p => Event.writeStd p.1)) = 0) := by
  induction l with
  | nil => simp [countCompute, resolvesFor, countStdRed]
  | cons p rest ih =>
    obtain ⟨ih1, ih2⟩ := ih
    constructor
    · intro k s
      simp [countCompute, resolvesFor, (ih1 k s).1, (ih1 k s).2]
    · intro i d
      simp [countStdRed, ih2 i d]

theorem writeStds_char (st : St) :
    (writeStds st).tr = st.tr ++ st.std_dict.map (fun p => Event.writeStd p.1) ∧
    (writeStds st).outs = st.outs ∧
    (Inv st → Inv (writeStds st)) ∧ (J st → J (writeStds st)) := by
  obtain ⟨hn1, hn2⟩ := writeStd_map_neutral st.std_dict
  refine ⟨rfl, rfl, ?_, ?_⟩
  · exact inv_mono st _ _ rfl rfl (fun k s _ => hn1 k s)
  · exact j_mono st _ _ rfl rfl hn2

theorem fluxLoop_char (P : Params) (sens : V) : ∀ (ids : List Nat) (st : St),
    ∃ Δ, (fluxLoop P sens ids st).tr = st.tr ++ Δ ∧
      (fluxLoop P sens ids st).calib_dict = st.calib_dict ∧
      (fluxLoop P sens ids st).std_dict = st.std_dict ∧
      sensOf Δ = [] ∧
      (∀ k s, countCompute k s Δ = 0 ∧ resolvesFor k s Δ = []) ∧
      (∀ i d, countStdRed i d Δ = 0) := by
  intro ids
  induction ids with
  | nil =>
    intro st
    refine ⟨[], ?_, rfl, rfl, ?_, ?_, ?_⟩ <;>
      simp [fluxLoop, sensOf, countCompute, resolvesFor, countStdRed]
  | cons id rest ih =>
    intro st
    rcases ho : lookupL st.outs id with _ | c
    · have hred : fluxLoop P sens (id :: rest) st = fluxLoop P sens rest st := by
        simp [fluxLoop, ho]
      obtain ⟨Δ, h1, h2, h3, h4, h5, h6⟩ := ih st
      exact ⟨Δ, by rw [hred, h1], by rw [hred, h2], by rw [hred, h3], h4, h5, h6⟩
    · have hred : fluxLoop P sens (id :: rest) st = fluxLoop P sens rest
          { st with outs := setL st.outs id (c.map (fun p => (p.1, P.fluxApply sens p.2)))
                    tr := st.tr ++ [.fluxed id] } := by
        simp [fluxLoop, ho]
      obtain ⟨Δ, h1, h2, h3, h4, h5, h6⟩ := ih
        { st with outs := setL st.outs id (c.map (fun p => (p.1, P.fluxApply sens p.2)))
                  tr := st.tr ++ [.fluxed id] }
      refine ⟨[Event.fluxed id] ++ Δ, ?_, ?_, ?_, ?_, ?_, ?_⟩
      · rw [hred, h1]; simp [List.append_assoc]
      · rw [hred, h2]
      · rw [hred, h3]
      · simp [sensOf_append, sensOf, h4]
      · intro k s
        simp [countCompute_append, resolvesFor_append, countCompute, resolvesFor,
          (h5 k s).1, (h5 k s).2]
      · intro i d
        simp [countStdRed_append, countStdRed, h6 i d]

theorem fluxStage_char (P : Params) (ids : List Nat) (st : St) :
    ∃ Δ, (fluxStage P ids st).tr = st.tr ++ Δ ∧
      (Inv st → Inv (fluxStage P ids st)) ∧
      (J st → J (fluxStage P ids st)) := by
  cases hg : (P.fluxFlag && !st.std_dict.isEmpty)
  case false =>
    have hred : fluxStage P ids st = st := by
      simp only [fluxStage, hg]
      rfl
    rw [hred]
    exact ⟨[], by simp, fun h => h, fun h => h⟩
  case true =>
    rcases hsd : st.std_dict with _ | ⟨⟨i, e⟩, rest⟩
    · have hred : fluxStage P ids st = st := by
        simp [fluxStage, hg, hsd]
      rw [hred]
      exact ⟨[], by simp, fun h => h, fun h => h⟩
    · rcases har : P.archival with _ | v
      · have hflux : P.fluxFlag = true := (Bool.and_eq_true _ _ |>.mp hg).1
        have hred : fluxStage P ids st =
            fluxLoop P (P.sensFn e.specobjs) ids (emitE (.sensBuild i) st) := by
          simp [fluxStage, hflux, hsd, har]
        obtain ⟨Δ, h1, h2, h3, _, h5, h6⟩ :=
          fluxLoop_char P (P.sensFn e.specobjs) ids (emitE (.sensBuild i) st)
        refine ⟨[Event.sensBuild i] ++ Δ, ?_, ?_, ?_⟩
        · rw [hred, h1]; simp [emitE, List.append_assoc]
        · intro h
          rw [hred]
          refine inv_mono (emitE (.sensBuild i) st) _ Δ h2 h1 (fun k s _ => h5 k s) ?_
          exact inv_mono st _ [Event.sensBuild i] rfl rfl
            (fun k s _ => by simp [countCompute, resolvesFor]) h
        · intro h
          rw [hred]
          refine j_mono (emitE (.sensBuild i) st) _ Δ h3 h1 h6 ?_
          exact j_mono st _ [Event.sensBuild i] rfl rfl
            (fun i0 d0 => by simp [countStdRed]) h
      · have hflux : P.fluxFlag = true := (Bool.and_eq_true _ _ |>.mp hg).1
        have hred : fluxStage P ids st = fluxLoop P v ids st := by
          simp [fluxStage, hflux, hsd, har]
        obtain ⟨Δ, h1, h2, h3, _, h5, h6⟩ := fluxLoop_char P v ids st
        refine ⟨Δ, by rw [hred, h1], ?_, ?_⟩
        · intro h
          rw [hred]
          exact inv_mono st _ Δ h2 h1 (fun k s _ => h5 k s) h
        · intro h
          rw [hred]
          exact j_mono st _ Δ h3 h1 h6 h

theorem initSt_inv (P : Params) (ids : List Nat) : Inv (initSt P ids) := by
  intro k s _
  constructor
  · intro _
    exact ⟨rfl, rfl⟩
  · intro v hv
    cases hv

theorem initSt_j (P : Params) (ids : List Nat) : J (initSt P ids) := by
  intro i det
  refine ⟨?_, ?_, ?_⟩
  · show countStdRed i det [] ≤ 1
    simp [countStdRed]
  · intro e _ _
    rfl
  · intro _
    rfl

theorem ARMS_state (P : Params) (ids : List Nat) :
    ∃ st, (ARMS P ids).tr = st.tr ∧ Inv st ∧ J st := by
  have h0inv : Inv (initSt P ids) := initSt_inv P ids
  have h0j : J (initSt P ids) := initSt_j P ids
  rcases hr : runExps P (initSt P ids) ids with ⟨st1, e⟩
  have hr1 : (runExps P (initSt P ids) ids).1 = st1 := by
    rw [hr]
  obtain ⟨Δ, _, _, vEx, jEx⟩ := runExps_char P ids (initSt P ids)
  rw [hr1] at vEx jEx
  have hinv1 : Inv st1 := vEx h0inv
  have hj1 : J st1 := jEx h0j
  cases e
  case some err =>
    have hred : ARMS P ids = (⟨st1.tr, st1.outs, some err, 0⟩ : Report) := by
      simp [ARMS, hr]
    exact ⟨st1, by rw [hred], hinv1, hj1⟩
  case none =>
    have hred : ARMS P ids = (⟨(fluxStage P ids (writeStds st1)).tr,
        (fluxStage P ids (writeStds st1)).outs, none, 0⟩ : Report) := by
      simp [ARMS, hr]
    obtain ⟨_, _, hwv, hwj⟩ := writeStds_char st1
    obtain ⟨Δ2, _, hfv, hfj⟩ := fluxStage_char P ids (writeStds st1)
    exact ⟨fluxStage P ids (writeStds st1), by rw [hred],
      hfv (hwv hinv1), hfj (hwj hj1)⟩

/-! ### Conclusions drawn from the invariants -/

theorem inv_concl (st : St) (h : Inv st) (k : Kind) (s : Nat)
    (hk : Kind.isCached k = true) :
    countCompute k s st.tr ≤ 1 ∧
    List.Pairwise (fun a b => a = b) (resolvesFor k s st.tr) := by
  obtain ⟨h1, h2⟩ := h k s hk
  rcases hc : st.calib_dict k s with _ | v
  · obtain ⟨e1, e2⟩ := h1 hc
    rw [e1, e2]
    exact ⟨by omega, List.Pairwise.nil⟩
  · obtain ⟨e1, e2⟩ := h2 v hc
    refine ⟨e1, List.pairwise_of_forall_mem_list ?_⟩
    intro a ha b hb
    rw [e2 a ha, e2 b hb]

/-! ### The claims -/

/-- C1: for every setup `s` and every product kind the driver caches in
`calib_dict` (bias, arc, bpm, trace), the underlying build collaborator is
invoked at most once per run for `(kind, s)`, and every resolution of
`(kind, s)` during the run returns the identical value (all resolve events
carry pairwise equal values). -/
theorem C1_cache_once (P : Params) (ids : List Nat) (s : Nat) :
    (countCompute .bias s (ARMS P ids).tr ≤ 1 ∧
      List.Pairwise (fun a b => a = b) (resolvesFor .bias s (ARMS P ids).tr)) ∧
    (countCompute .arc s (ARMS P ids).tr ≤ 1 ∧
      List.Pairwise (fun a b => a = b) (resolvesFor .arc s (ARMS P ids).tr)) ∧
    (countCompute .bpm s (ARMS P ids).tr ≤ 1 ∧
      List.Pairwise (fun a b => a = b) (resolvesFor .bpm s (ARMS P ids).tr)) ∧
    (countCompute .trace s (ARMS P ids).tr ≤ 1 ∧
      List.Pairwise (fun a b => a = b) (resolvesFor .trace s (ARMS P ids).tr)) := by
  obtain ⟨st, htr, hinv, _⟩ := ARMS_state P ids
  rw [htr]
  exact ⟨inv_concl st hinv .bias s rfl, inv_concl st hinv .arc s rfl,
    inv_concl st hinv .bpm s rfl, inv_concl st hinv .trace s rfl⟩

/-- C4: a standard-star exposure is reduced at most once per detector in a
run, no matter how many science exposures reference it. -/
theorem C4_standard_once (P : Params) (ids : List Nat) (i det : Nat) :
    countStdRed i det (ARMS P ids).tr ≤ 1 := by
  obtain ⟨st, htr, _, hj⟩ := ARMS_state P ids
  rw [htr]
  exact (hj i det).1

/-- C3: on every non-skipped (exposure, detector) iteration the products
are resolved in exactly the order bias, arc, bpm, trace, tilt, flat, wave,
and every dependency of each step occupies a strictly earlier position in
that order, so no step is attempted before its dependencies are
resolved. -/
theorem C3_dependency_order (P : Params) (sciId : Nat) (slf : Exp) (st : St)
    (det : Nat) (h : detSkip P det = false) :
    ∃ Δ, (detStep P sciId slf st det).2.1.tr = st.tr ++ Δ ∧
      resolveKinds Δ = canonicalOrder ∧
      (∀ k, canonicalOrder[ordPos k]? = some k) ∧
      (∀ k d, d ∈ depsOf k → ordPos d < ordPos k) := by
  obtain ⟨Δ, t, _, _, _, _, _, hrk⟩ := detStep_char P sciId slf st det
  exact ⟨Δ, t, hrk h, by decide, by decide⟩

theorem C3_dependency_order_witness :
    detSkip PC2 1 = false ∧
    ∃ Δ, (detStep PC2 1 initExp stEmpty 1).2.1.tr = stEmpty.tr ++ Δ ∧
      resolveKinds Δ = canonicalOrder ∧
      (∀ k, canonicalOrder[ordPos k]? = some k) ∧
      (∀ k d, d ∈ depsOf k → ordPos d < ordPos k) :=
  ⟨by decide, C3_dependency_order PC2 1 initExp stEmpty 1 (by decide)⟩

/-- C5: when a science exposure's standard star has not yet been reduced
on the current detector, the co-reduction step copies the whole
calibration-field record (all fourteen attributes, all detectors) from the
science exposure onto the standard by value — afterwards the standard's
calibration fields are the very same values as the science exposure's —
and performs no calibration computation while doing so. -/
theorem C5_copy_calib (P : Params) (sciId det : Nat) (slf : Exp) (st : St)
    (i : Nat) (e : Exp) (raw rawS : V)
    (hstd : P.stdOf sciId = some i)
    (hlook : lookupL st.std_dict i = some e)
    (hext : e.extracted det = false)
    (hload : P.loadFrames sciId det = some raw)
    (hloadS : P.loadFrames i det = some rawS) :
    ∃ e' Δ, lookupL (sciStdStage P sciId det slf st).2.1.std_dict i = some e' ∧
      e'.cf = slf.cf ∧
      (sciStdStage P sciId det slf st).2.1.tr = st.tr ++ Δ ∧
      (∀ k s, countCompute k s Δ = 0) ∧
      (sciStdStage P sciId det slf st).2.2 = none := by
  have hsd : (sciStdStage P sciId det slf st).2.1.std_dict =
      setL (setL st.std_dict i
        { e with cf := { slf with specobjs :=
            slf.specobjs ++ [(det, P.reduceFn raw det)] }.cf }) i
        { e with
          cf := { slf with specobjs :=
            slf.specobjs ++ [(det, P.reduceFn raw det)] }.cf
          specobjs := e.specobjs ++ [(det, P.reduceFn rawS det)]
          extracted := updB e.extracted det true } := by
    simp [sciStdStage, hload, hstd, hlook, hext, hloadS, emitE]
  have hl1 := lookupL_setL_some st.std_dict i e
    ({ e with cf := { slf with specobjs :=
        slf.specobjs ++ [(det, P.reduceFn raw det)] }.cf } : Exp) hlook
  have hl2 := lookupL_setL_some _ i _
    ({ e with
        cf := { slf with specobjs :=
          slf.specobjs ++ [(det, P.reduceFn raw det)] }.cf
        specobjs := e.specobjs ++ [(det, P.reduceFn rawS det)]
        extracted := updB e.extracted det true } : Exp) hl1
  refine ⟨{ e with
      cf := { slf with specobjs :=
        slf.specobjs ++ [(det, P.reduceFn raw det)] }.cf
      specobjs := e.specobjs ++ [(det, P.reduceFn rawS det)]
      extracted := updB e.extracted det true },
    [Event.reduceSci sciId det, Event.reduceStd i det],
    by rw [hsd]; exact hl2, rfl, ?_, ?_, ?_⟩
  · simp [sciStdStage, hload, hstd, hlook, hext, hloadS, emitE]
  · intro k s; simp [countCompute]
  · simp [sciStdStage, hload, hstd, hlook, hext, hloadS, emitE]

theorem C5_copy_calib_witness :
    ∃ e' Δ, lookupL (sciStdStage PC5std 1 1 initExp stStd).2.1.std_dict 5 = some e' ∧
      e'.cf = initExp.cf ∧
      (sciStdStage PC5std 1 1 initExp stStd).2.1.tr = stStd.tr ++ Δ ∧
      (∀ k s, countCompute k s Δ = 0) ∧
      (sciStdStage PC5std 1 1 initExp stStd).2.2 = none :=
  C5_copy_calib PC5std 1 1 initExp stStd 5 initExp 0 0 rfl rfl rfl rfl rfl

/-- C7: whenever the orchestrator returns without an uncaught error, the
returned status is 0 and every science exposure in the list has been
written; the run never distinguishes any other success value (the `status`
variable of `ARMS` is never reassigned). -/
theorem C7_status (P : Params) (ids : List Nat)
    (h : (ARMS P ids).err = none) :
    (ARMS P ids).status = 0 ∧
    ∀ id ∈ ids, Event.write id ∈ (ARMS P ids).tr := by
  rcases hr : runExps P (initSt P ids) ids with ⟨st1, e⟩
  cases e
  case some err =>
    have hbad : (ARMS P ids).err = some err := by simp [ARMS, hr]
    rw [hbad] at h
    cases h
  case none =>
    have hred : ARMS P ids = (⟨(fluxStage P ids (writeStds st1)).tr,
        (fluxStage P ids (writeStds st1)).outs, none, 0⟩ : Report) := by
      simp [ARMS, hr]
    constructor
    · rw [hred]
    · intro id hid
      have hw : Event.write id ∈ st1.tr := by
        have hh := runExps_writes P ids (initSt P ids) (by rw [hr]) id hid
        rwa [show (runExps P (initSt P ids) ids).1 = st1 from by rw [hr]] at hh
      rw [hred]
      show Event.write id ∈ (fluxStage P ids (writeStds st1)).tr
      obtain ⟨hwtr, _, _, _⟩ := writeStds_char st1
      obtain ⟨Δ2, hftr, _, _⟩ := fluxStage_char P ids (writeStds st1)
      rw [hftr, hwtr]
      exact List.mem_append_left _ (List.mem_append_left _ hw)

theorem C7_status_witness :
    (ARMS PC2 [1, 2]).err = none ∧
    ((ARMS PC2 [1, 2]).status = 0 ∧
      ∀ id ∈ [1, 2], Event.write id ∈ (ARMS PC2 [1, 2]).tr) :=
  ⟨by decide, C7_status PC2 [1, 2] (by decide)⟩

/-- C6 (amended): a `MissingInputError` or `WriteFailure` raised while
reducing or writing one exposure is not caught anywhere in the
orchestrator: the run stops at the failing exposure, the error propagates
out, the failing exposure is not written, and no subsequent exposure is
processed or written. -/
theorem C6_abort (P : Params) (st : St) (sciId : Nat) (rest : List Nat)
    (st' : St) (e : Err) (h : expStep P st sciId = (st', some e)) :
    runExps P st (sciId :: rest) = (st', some e) ∧
    writesOf st'.tr = writesOf st.tr := by
  constructor
  · simp [runExps, h]
  · obtain ⟨Δ, t, _, _, _, _, hw⟩ := expStep_char P st sciId
    have h1 : (expStep P st sciId).1 = st' := by rw [h]
    have h2 : (expStep P st sciId).2 = some e := by rw [h]
    rw [h1, h2] at hw
    exact hw (by simp)

theorem C6_abort_witness :
    runExps PC6allfail stEmpty [1, 2] =
      ((expStep PC6allfail stEmpty 1).1, some (Err.missingInput 1 1)) ∧
    writesOf (expStep PC6allfail stEmpty 1).1.tr = writesOf stEmpty.tr :=
  C6_abort PC6allfail stEmpty 1 [2] (expStep PC6allfail stEmpty 1).1
    (Err.missingInput 1 1) rfl

/-- C6 counterexample: with the science raw frame of exposure 1 missing,
the whole `ARMS` run aborts with the `MissingInputError`; exposure 2 —
which would have reduced successfully — is never written, and no success
status is reported.  This contradicts the claim that the failure is caught
at the orchestrator and processing continues with the next exposure. -/
theorem C6_counterexample :
    (ARMS PC6fail [1, 2]).err = some (Err.missingInput 1 1) ∧
    Event.write 1 ∉ (ARMS PC6fail [1, 2]).tr ∧
    Event.write 2 ∉ (ARMS PC6fail [1, 2]).tr := by decide

/-- C2 (amended): in the two-exposure shared-setup scenario with master
reuse disabled (the source defaults), the second exposure triggers zero
additional computations only for the four products cached in `calib_dict`
— bias, arc, bpm, trace stay at one computation for the whole run — while
tilt, flat and wave are tracked on the per-exposure object and are
recomputed for the second exposure (two computations each). -/
theorem C2_amended :
    (countCompute .bias 0 (ARMS PC2 [1, 2]).tr = 1 ∧
     countCompute .arc 0 (ARMS PC2 [1, 2]).tr = 1 ∧
     countCompute .bpm 0 (ARMS PC2 [1, 2]).tr = 1 ∧
     countCompute .trace 0 (ARMS PC2 [1, 2]).tr = 1) ∧
    (countCompute .tilt 0 (ARMS PC2 [1, 2]).tr = 2 ∧
     countCompute .flat 0 (ARMS PC2 [1, 2]).tr = 2 ∧
     countCompute .wave 0 (ARMS PC2 [1, 2]).tr = 2) ∧
    (countCompute .bias 0 (ARMS PC2 [1]).tr = 1 ∧
     countCompute .tilt 0 (ARMS PC2 [1]).tr = 1 ∧
     countCompute .flat 0 (ARMS PC2 [1]).tr = 1 ∧
     countCompute .wave 0 (ARMS PC2 [1]).tr = 1) := by decide

/-- C2 counterexample: in the claimed scenario (two science exposures
sharing one setup, one detector, no standard, default settings) the tilt
solution is computed once by the first exposure and computed AGAIN by the
second exposure — the second per-detector reduction does not trigger zero
additional calibration computations. -/
theorem C2_counterexample :
    countCompute .tilt 0 (ARMS PC2 [1, 2]).tr = 2 ∧
    countCompute .tilt 0 (ARMS PC2 [1]).tr = 1 := by decide

theorem fluxLoop_outs_ne (P : Params) (sens : V) :
    ∀ (ids : List Nat) (st : St) (id : Nat), id ∉ ids →
    lookupL (fluxLoop P sens ids st).outs id = lookupL st.outs id := by
  intro ids
  induction ids with
  | nil =>
    intro st id _
    simp [fluxLoop]
  | cons a rest ih =>
    intro st id hid
    have hidr : id ∉ rest := fun hh => hid (List.mem_cons_of_mem a hh)
    have hida : id ≠ a := fun hh => hid (hh ▸ List.mem_cons_self a rest)
    rcases ha : lookupL st.outs a with _ | c
    · have hred : fluxLoop P sens (a :: rest) st = fluxLoop P sens rest st := by
        simp [fluxLoop, ha]
      rw [hred, ih st id hidr]
    · have hred : fluxLoop P sens (a :: rest) st = fluxLoop P sens rest
          { st with outs := setL st.outs a (c.map (fun p => (p.1, P.fluxApply sens p.2)))
                    tr := st.tr ++ [.fluxed a] } := by
        simp [fluxLoop, ha]
      rw [hred, ih _ id hidr]
      exact lookupL_setL_ne st.outs a id _ hida

theorem fluxLoop_outs_mem (P : Params) (sens : V) :
    ∀ (ids : List Nat) (st : St) (id : Nat) (c : List (Nat × V)),
    ids.Nodup → id ∈ ids → lookupL st.outs id = some c →
    lookupL (fluxLoop P sens ids st).outs id =
      some (c.map (fun p => (p.1, P.fluxApply sens p.2))) := by
  intro ids
  induction ids with
  | nil =>
    intro st id c _ hid
    simp at hid
  | cons a rest ih =>
    intro st id c hnd hid hl
    rcases List.mem_cons.mp hid with hid | hid
    · subst hid
      have hmem : id ∉ rest := (List.nodup_cons.mp hnd).1
      have hred : fluxLoop P sens (id :: rest) st = fluxLoop P sens rest
          { st with outs := setL st.outs id (c.map (fun p => (p.1, P.fluxApply sens p.2)))
                    tr := st.tr ++ [.fluxed id] } := by
        simp [fluxLoop, hl]
      rw [hred, fluxLoop_outs_ne P sens rest _ id hmem]
      exact lookupL_setL_some st.outs id c _ hl
    · have hida : id ≠ a := by
        intro hh
        exact (List.nodup_cons.mp hnd).1 (by rw [← hh]; exact hid)
      rcases ha : lookupL st.outs a with _ | ca
      · have hred : fluxLoop P sens (a :: rest) st = fluxLoop P sens rest st := by
          simp [fluxLoop, ha]
        rw [hred]
        exact ih st id c (List.nodup_cons.mp hnd).2 hid hl
      · have hred : fluxLoop P sens (a :: rest) st = fluxLoop P sens rest
            { st with outs := setL st.outs a (ca.map (fun p => (p.1, P.fluxApply sens p.2)))
                      tr := st.tr ++ [.fluxed a] } := by
          simp [fluxLoop, ha]
        rw [hred]
        refine ih _ id c (List.nodup_cons.mp hnd).2 hid ?_
        show lookupL (setL st.outs a (ca.map (fun p => (p.1, P.fluxApply sens p.2)))) id = some c
        rw [lookupL_setL_ne st.outs a id _ hida]
        exact hl

/-- C8: when flux calibration runs with no archival sensitivity function,
the deferred flux stage builds the sensitivity function from exactly one
standard — the one at the first key of `std_dict`, no matter how many
standards follow — and applies that one function to every written science
exposure by re-reading its output entry and rewriting it in place. -/
theorem C8_flux_single_standard (P : Params) (st : St) (ids : List Nat)
    (i : Nat) (e : Exp) (rest : List (Nat × Exp))
    (hflux : P.fluxFlag = true) (har : P.archival = none)
    (hsd : st.std_dict = (i, e) :: rest) (hnd : ids.Nodup) :
    ∃ Δ, (fluxStage P ids st).tr = st.tr ++ Δ ∧ sensOf Δ = [i] ∧
      ∀ id ∈ ids, ∀ c, lookupL st.outs id = some c →
        lookupL (fluxStage P ids st).outs id =
          some (c.map (fun p => (p.1, P.fluxApply (P.sensFn e.specobjs) p.2))) := by
  have hred : fluxStage P ids st =
      fluxLoop P (P.sensFn e.specobjs) ids (emitE (.sensBuild i) st) := by
    simp [fluxStage, hflux, hsd, har]
  obtain ⟨Δ2, h1, _, _, h4, _, _⟩ :=
    fluxLoop_char P (P.sensFn e.specobjs) ids (emitE (.sensBuild i) st)
  refine ⟨[Event.sensBuild i] ++ Δ2, ?_, ?_, ?_⟩
  · rw [hred, h1]
    simp [emitE, List.append_assoc]
  · simp [sensOf_append, sensOf, h4]
  · intro id hid c hc
    rw [hred]
    exact fluxLoop_outs_mem P (P.sensFn e.specobjs) ids
      (emitE (.sensBuild i) st) id c hnd hid hc

theorem C8_flux_single_standard_witness :
    ∃ Δ, (fluxStage PC8flux [1, 2] stC8).tr = stC8.tr ++ Δ ∧ sensOf Δ = [5] ∧
      ∀ id ∈ [1, 2], ∀ c, lookupL stC8.outs id = some c →
        lookupL (fluxStage PC8flux [1, 2] stC8).outs id =
          some (c.map (fun p => (p.1,
            PC8flux.fluxApply (PC8flux.sensFn initExp.specobjs) p.2))) :=
  C8_flux_single_standard PC8flux stC8 [1, 2] 5 initExp [] rfl rfl rfl (by decide)

/-- C9 (amended): the deferred flux stage executes exactly when flux
calibration is requested and the standard-star map is non-empty — i.e. at
least one standard was identified for some science exposure, whether or
not it was actually reduced.  When the gate fails the stage performs no
action at all: the state (including the written spectra) is returned
unchanged.  When it holds with no archival function, the sensitivity
build from the first standard is performed. -/
theorem C9_flux_gate (P : Params) (ids : List Nat) (st : St) :
    (¬(P.fluxFlag = true ∧ st.std_dict ≠ []) → fluxStage P ids st = st) ∧
    (∀ i e rest, P.fluxFlag = true → P.archival = none →
      st.std_dict = (i, e) :: rest →
      Event.sensBuild i ∈ (fluxStage P ids st).tr) := by
  constructor
  · intro h
    have hg : (P.fluxFlag && !st.std_dict.isEmpty) = false := by
      cases hf : P.fluxFlag
      · simp
      · rcases hsd : st.std_dict with _ | ⟨p, rest⟩
        · simp [hsd]
        · exact absurd ⟨hf, by rw [hsd]; simp⟩ h
    simp only [fluxStage, hg]
    rfl
  · intro i e rest hflux har hsd
    have hred : fluxStage P ids st =
        fluxLoop P (P.sensFn e.specobjs) ids (emitE (.sensBuild i) st) := by
      simp [fluxStage, hflux, hsd, har]
    obtain ⟨Δ2, h1, _, _, _, _, _⟩ :=
      fluxLoop_char P (P.sensFn e.specobjs) ids (emitE (.sensBuild i) st)
    rw [hred, h1]
    simp [emitE]

theorem C9_flux_gate_witness :
    fluxStage PC2 [1] stEmpty = stEmpty ∧
    Event.sensBuild 5 ∈ (fluxStage PC8flux [1] stStd).tr :=
  ⟨(C9_flux_gate PC2 [1] stEmpty).1
      (by rintro ⟨h1, -⟩; exact absurd h1 (by decide)),
    (C9_flux_gate PC8flux [1] stStd).2 5 initExp [] rfl rfl rfl⟩

/-- C9 counterexample: flux calibration is requested, one standard star is
assigned, and `detnum` is the empty list so every detector is skipped —
nothing is ever reduced.  The run still executes the deferred flux stage:
it builds a sensitivity function from standard 5 and rewrites the science
output, although the count of standard-star reductions in the whole trace
is zero.  This refutes the claim that the stage runs only if at least one
standard star was reduced during the run. -/
theorem C9_counterexample :
    ARMS PC9flux [1] = ⟨[Event.write 1, Event.writeStd 5, Event.sensBuild 5,
      Event.fluxed 1], [(1, [])], none, 0⟩ ∧
    countStdRed 5 1 (ARMS PC9flux [1]).tr = 0 ∧
    countCompute .bias 0 (ARMS PC9flux [1]).tr = 0 := by decide

theorem readLists_skip (fs : String → Option Nat) (NIST : Bool) :
    ∀ lines : List String, readLists fs NIST true lines =
      .ok (lines.filterMap (fun l => fs (fileOfLamp NIST l))) := by
  intro lines
  induction lines with
  | nil => simp [readLists]
  | cons l rest ih =>
    rcases hf : fs (fileOfLamp NIST l) with _ | t
    · simp [readLists, hf, ih, List.filterMap_cons]
    · simp [readLists, hf, ih, List.filterMap_cons, Except.map]

/-- C10: `load_line_lists` called with `skip=True` and `unknown=False`
loads exactly the requested line lists whose files exist on disk, silently
omitting the missing ones and never raising; in particular when none of
the requested files exists it returns `None` rather than an empty table or
an exception. -/
theorem C10_load_line_lists_skip (fs : String → Option Nat)
    (vstack : List Nat → Nat) (lu : List String → Nat) (lines : List String) :
    (load_line_lists fs vstack lu lines false true false =
      .ok (if (lines.filterMap (fun l => fs (fileOfLamp false l))).isEmpty
           then none
           else some (vstack (lines.filterMap (fun l => fs (fileOfLamp false l)))))) ∧
    ((∀ l ∈ lines, fs (fileOfLamp false l) = none) →
      load_line_lists fs vstack lu lines false true false = .ok none) := by
  have hr := readLists_skip fs false lines
  constructor
  · simp only [load_line_lists, hr]
    split <;> simp
  · intro h
    have h0 : lines.filterMap (fun l => fs (fileOfLamp false l)) = [] :=
      List.filterMap_eq_nil_iff.mpr h
    simp [load_line_lists, hr, h0]

theorem C10_load_line_lists_skip_witness :
    load_line_lists (fun _ => none) (fun l => l.length) (fun _ => 0)
      ["ArI", "HgI"] false true false = .ok none :=
  (C10_load_line_lists_skip (fun _ => none) (fun l => l.length) (fun _ => 0)
    ["ArI", "HgI"]).2 (fun _ _ => rfl)

end PypeIt
